import Mathlib

/-!
Verification of the trip-itinerary backend: the Itinerary Allocation Engine,
the Interest Parser, and the Trip Regeneration Coordinator (Express routes over
a Prisma/PostgreSQL store).

The coordinator and route handlers are embedded from the source
(`trips.routes.ts`, the variant with the regeneration lock).  The store is
modelled as explicit lists of Trip / DayPlan / PlannedActivity rows with
auto-increment id counters; Prisma operations (findUnique, findMany,
updateMany, deleteMany, create, $transaction) become pure functions on that
state.  JavaScript numbers that matter are modelled as rationals; timestamps
as naturals (milliseconds).
-/

namespace Metroplex

/-- An activity catalog row (Prisma model Activity): destination, name,
category tag, duration in hours, price level.  Duration is a rational, since
the admin route accepts any number > 0. -/
structure Activity where
  id : Nat
  destination : String
  name : String
  type : String
  durationHours : Rat
  priceLevel : Nat
deriving DecidableEq

/-- Modelled from the spec: the Interest Parser (section 4.1) is not among the
provided source files (only its caller `generateItinerary` is imported by the
routes).  Per the spec it normalizes a raw comma-separated string into a set of
lower-cased, trimmed, non-empty tokens; duplicates are dropped. -/
def parseInterests (raw : String) : List String :=
  ((((raw.splitOn ",").map (fun s => s.trim.toLower)).filter
      (fun s => s != "")).eraseDups)

/-- Modelled from the spec: the daily duration capacity design constant of the
Allocation Engine (section 4.2, "e.g. 8 hours"). -/
def dailyCapacity : Rat := 8

/-- Modelled from the spec: scoring of one activity against the interest
profile (+2 when its category token is in the profile, +0 otherwise). -/
def score (profile : List String) (a : Activity) : Nat :=
  if a.type ∈ profile then 2 else 0

/-- Modelled from the spec: the candidate ordering of the Allocation Engine -
score descending, ties broken by ascending price level then ascending name. -/
def actBefore (profile : List String) (a b : Activity) : Prop :=
  score profile b < score profile a ∨
    (score profile a = score profile b ∧
      (a.priceLevel < b.priceLevel ∨
        (a.priceLevel = b.priceLevel ∧ a.name ≤ b.name)))

instance (profile : List String) : DecidableRel (actBefore profile) := by
  intro a b
  unfold actBefore
  infer_instance

instance (profile : List String) : IsTotal Activity (actBefore profile) where
  total := by
    intro a b
    unfold actBefore
    rcases Nat.lt_trichotomy (score profile a) (score profile b) with h | h | h
    · exact Or.inr (Or.inl h)
    · rcases Nat.lt_trichotomy a.priceLevel b.priceLevel with hp | hp | hp
      · exact Or.inl (Or.inr ⟨h, Or.inl hp⟩)
      · rcases le_total a.name b.name with hn | hn
        · exact Or.inl (Or.inr ⟨h, Or.inr ⟨hp, hn⟩⟩)
        · exact Or.inr (Or.inr ⟨h.symm, Or.inr ⟨hp.symm, hn⟩⟩)
      · exact Or.inr (Or.inr ⟨h.symm, Or.inl hp⟩)
    · exact Or.inl (Or.inl h)

instance (profile : List String) : IsTrans Activity (actBefore profile) where
  trans := by
    intro a b c hab hbc
    unfold actBefore at *
    rcases hab with hab | ⟨hs₁, hab⟩
    · rcases hbc with hbc | ⟨hs₂, _⟩
      · exact Or.inl (Nat.lt_trans hbc hab)
      · exact Or.inl (hs₂ ▸ hab)
    · rcases hbc with hbc | ⟨hs₂, hbc⟩
      · exact Or.inl (hs₁ ▸ hbc)
      · refine Or.inr ⟨hs₁.trans hs₂, ?_⟩
        rcases hab with hab | ⟨hp₁, hab⟩
        · rcases hbc with hbc | ⟨hp₂, _⟩
          · exact Or.inl (Nat.lt_trans hab hbc)
          · exact Or.inl (hp₂ ▸ hab)
        · rcases hbc with hbc | ⟨hp₂, hbc⟩
          · exact Or.inl (hp₁ ▸ hbc)
          · exact Or.inr ⟨hp₁.trans hp₂, hab.trans hbc⟩

/-- Total duration of one day's activity list. -/
def dayDuration (day : List Activity) : Rat :=
  (day.map (fun a => a.durationHours)).sum

/-- Modelled from the spec: first-fit placement of one activity - put it into
the first day (in day-number order) whose running total plus the activity's
duration stays within capacity; `none` when no day can accept it. -/
def placeFirstFit (a : Activity) : List (List Activity) → Option (List (List Activity))
  | [] => none
  | day :: rest =>
    if dayDuration day + a.durationHours ≤ dailyCapacity then
      some ((day ++ [a]) :: rest)
    else
      match placeFirstFit a rest with
      | some rest2 => some (day :: rest2)
      | none => none

/-- Modelled from the spec: the single greedy pass over the sorted pool.  Each
activity is considered once and placed at most once (which realizes the
"already used" set of section 4.2 step 3); unplaceable activities are
skipped. -/
def fillDays : List Activity → List (List Activity) → List (List Activity)
  | [], days => days
  | a :: pool, days =>
    match placeFirstFit a days with
    | some days2 => fillDays pool days2
    | none => fillDays pool days

/-- The engine output: per-day ordered activity lists plus an optional
informational warning. -/
structure ItineraryPlan where
  days : List (List Activity)
  warning : Option String
deriving DecidableEq

/-- The sorted candidate pool (score descending, ties by ascending price level
then ascending name), realized by a stable insertion sort. -/
def sortPool (profile : List String) (activities : List Activity) : List Activity :=
  List.insertionSort (actBefore profile) activities

/-- Modelled from the spec: the Allocation Engine `allocate` (section 4.2).
Sort the pool, fill days greedily first-fit starting from `daysCount` empty
days, and attach a shortfall warning when some day remains empty. -/
def allocate (activities : List Activity) (daysCount : Nat)
    (profile : List String) : ItineraryPlan :=
  let pool := sortPool profile activities
  let days := fillDays pool (List.replicate daysCount [])
  let emptyDays := (days.filter (fun d => d.isEmpty)).length
  { days := days
    warning :=
      if emptyDays = 0 then none
      else
        some ("insufficient activities for " ++ toString emptyDays ++ " of "
          ++ toString daysCount ++ " days") }

/-- Modelled from the spec: `generateItinerary` as imported by the routes from
planner.service - the engine applied to the parsed interest profile. -/
def generateItinerary (activities : List Activity) (daysCount : Nat)
    (interests : String) : ItineraryPlan :=
  allocate activities daysCount (parseInterests interests)

/-- Every day of the layout stays within the daily capacity. -/
def CapOK (days : List (List Activity)) : Prop :=
  ∀ day ∈ days, dayDuration day ≤ dailyCapacity

/-- Every member of every day comes from the source pool. -/
def DaysFrom (s : List Activity) (days : List (List Activity)) : Prop :=
  ∀ day ∈ days, ∀ a ∈ day, a ∈ s

lemma dayDuration_append_single (day : List Activity) (a : Activity) :
    dayDuration (day ++ [a]) = dayDuration day + a.durationHours := by
  simp [dayDuration]

lemma placeFirstFit_capOK {a : Activity} :
    ∀ {days days' : List (List Activity)}, CapOK days →
      placeFirstFit a days = some days' → CapOK days' := by
  intro days
  induction days with
  | nil => intro days' _ h; simp [placeFirstFit] at h
  | cons day rest ih =>
    intro days' hcap h
    rw [placeFirstFit] at h
    split at h
    · rename_i hfit
      cases h
      intro d hd
      rcases List.mem_cons.mp hd with rfl | hd
      · rw [dayDuration_append_single]; exact hfit
      · exact hcap d (List.mem_cons_of_mem _ hd)
    · revert h
      cases hrec : placeFirstFit a rest with
      | none => intro h; cases h
      | some rest2 =>
        intro h
        cases h
        have hcrest : CapOK rest := fun d hd => hcap d (List.mem_cons_of_mem _ hd)
        have hcr2 := ih hcrest hrec
        intro d hd
        rcases List.mem_cons.mp hd with rfl | hd
        · exact hcap d (List.mem_cons_self _ _)
        · exact hcr2 d hd

lemma fillDays_capOK :
    ∀ (pool : List Activity) (days : List (List Activity)), CapOK days →
      CapOK (fillDays pool days) := by
  intro pool
  induction pool with
  | nil => intro days h; simpa [fillDays] using h
  | cons a pool ih =>
    intro days h
    rw [fillDays]
    cases hp : placeFirstFit a days with
    | none => exact ih days h
    | some days2 => exact ih days2 (placeFirstFit_capOK h hp)

lemma placeFirstFit_daysFrom {s : List Activity} {a : Activity} (ha : a ∈ s) :
    ∀ {days days' : List (List Activity)}, DaysFrom s days →
      placeFirstFit a days = some days' → DaysFrom s days' := by
  intro days
  induction days with
  | nil => intro days' _ h; simp [placeFirstFit] at h
  | cons day rest ih =>
    intro days' hfrom h
    rw [placeFirstFit] at h
    split at h
    · cases h
      intro d hd
      rcases List.mem_cons.mp hd with rfl | hd
      · intro x hx
        rcases List.mem_append.mp hx with hx | hx
        · exact hfrom day (List.mem_cons_self _ _) x hx
        · rcases List.mem_singleton.mp hx with rfl
          exact ha
      · exact hfrom d (List.mem_cons_of_mem _ hd)
    · revert h
      cases hrec : placeFirstFit a rest with
      | none => intro h; cases h
      | some rest2 =>
        intro h
        cases h
        have hfr : DaysFrom s rest := fun d hd => hfrom d (List.mem_cons_of_mem _ hd)
        have hfr2 := ih hfr hrec
        intro d hd
        rcases List.mem_cons.mp hd with rfl | hd
        · exact hfrom d (List.mem_cons_self _ _)
        · exact hfr2 d hd

lemma fillDays_daysFrom {s : List Activity} :
    ∀ {pool : List Activity} {days : List (List Activity)},
      (∀ a ∈ pool, a ∈ s) → DaysFrom s days → DaysFrom s (fillDays pool days) := by
  intro pool
  induction pool with
  | nil => intro days _ h; simpa [fillDays] using h
  | cons a pool ih =>
    intro days hpool h
    rw [fillDays]
    have ha : a ∈ s := hpool a (List.mem_cons_self _ _)
    have hpool' : ∀ x ∈ pool, x ∈ s := fun x hx => hpool x (List.mem_cons_of_mem _ hx)
    cases hp : placeFirstFit a days with
    | none => exact ih hpool' h
    | some days2 => exact ih hpool' (placeFirstFit_daysFrom ha h hp)

lemma allocate_days_capOK (activities : List Activity) (daysCount : Nat)
    (profile : List String) : CapOK (allocate activities daysCount profile).days := by
  apply fillDays_capOK
  intro day hday
  rcases List.eq_of_mem_replicate hday with rfl
  simp [dayDuration, dailyCapacity]

lemma allocate_days_from (activities : List Activity) (daysCount : Nat)
    (profile : List String) :
    DaysFrom activities (allocate activities daysCount profile).days := by
  apply fillDays_daysFrom
  · intro a ha
    exact (List.mem_insertionSort (actBefore profile)).mp ha
  · intro day hday
    rcases List.eq_of_mem_replicate hday with rfl
    intro a ha
    cases ha

/-- C7: the allocation engine is deterministic - for a fixed input triple,
repeated invocations of `allocate` return identical output - and the candidate
pool ordering it uses breaks score ties by the stable secondary key of
ascending price level then ascending name (the sorted pool is a permutation of
the input sorted under exactly that ordering, by a stable sort). -/
theorem allocate_deterministic_stable (activities : List Activity)
    (daysCount : Nat) (profile : List String) :
    allocate activities daysCount profile = allocate activities daysCount profile ∧
    List.Sorted (actBefore profile) (sortPool profile activities) ∧
    List.Perm (sortPool profile activities) activities :=
  ⟨rfl, List.sorted_insertionSort (actBefore profile) activities,
    List.perm_insertionSort (actBefore profile) activities⟩

/-- C8: in every plan the engine produces, each day's total duration is within
the fixed daily capacity, and no activity whose single duration exceeds the
capacity is ever placed into any day. -/
theorem allocate_capacity_invariant (activities : List Activity)
    (daysCount : Nat) (profile : List String)
    (hpos : ∀ a ∈ activities, 0 ≤ a.durationHours) :
    ∀ day ∈ (allocate activities daysCount profile).days,
      dayDuration day ≤ dailyCapacity ∧
        ∀ a ∈ day, a.durationHours ≤ dailyCapacity := by
  intro day hday
  have hcap := allocate_days_capOK activities daysCount profile day hday
  refine ⟨hcap, ?_⟩
  intro a ha
  have hfrom := allocate_days_from activities daysCount profile day hday
  have hmem : a.durationHours ∈ day.map (fun a => a.durationHours) :=
    List.mem_map_of_mem _ ha
  have hnn : ∀ x ∈ day.map (fun a => a.durationHours), (0:Rat) ≤ x := by
    intro x hx
    rcases List.mem_map.mp hx with ⟨b, hb, rfl⟩
    exact hpos b (hfrom b hb)
  have hle : a.durationHours ≤ dayDuration day :=
    List.single_le_sum hnn _ hmem
  exact hle.trans hcap

/-- Witness for C8 at a concrete catalog. -/
theorem allocate_capacity_invariant_witness :
    (∀ a ∈ [Activity.mk 1 "Paris" "Louvre Museum" "culture" 3 3],
        (0:Rat) ≤ a.durationHours) ∧
    (∀ day ∈ (allocate [Activity.mk 1 "Paris" "Louvre Museum" "culture" 3 3] 1 []).days,
      dayDuration day ≤ dailyCapacity ∧
        ∀ a ∈ day, a.durationHours ≤ dailyCapacity) :=
  ⟨by decide,
    allocate_capacity_invariant [Activity.mk 1 "Paris" "Louvre Museum" "culture" 3 3] 1 []
      (by decide)⟩

/-! ## The persisted store

Rows of the Prisma models Trip, DayPlan and PlannedActivity, with
auto-increment id counters.  Timestamps are naturals (milliseconds since
epoch); the nullable regeneration-lock expiry is an `Option Nat`. -/

/-- A Trip row (trips.routes.ts / Prisma model Trip). -/
structure Trip where
  id : Nat
  userId : Nat
  destination : String
  daysCount : Nat
  budget : Option Rat
  interests : String
  regenLockUntil : Option Nat
deriving DecidableEq

/-- A DayPlan row. -/
structure DayPlanRow where
  id : Nat
  tripId : Nat
  dayNumber : Nat
deriving DecidableEq

/-- A PlannedActivity row. -/
structure PlannedActivityRow where
  id : Nat
  dayPlanId : Nat
  activityId : Nat
  orderIndex : Nat
deriving DecidableEq

/-- The relational store visible to the trip routes. -/
structure DB where
  trips : List Trip
  activities : List Activity
  dayPlans : List DayPlanRow
  plannedActivities : List PlannedActivityRow
  nextTripId : Nat
  nextDayPlanId : Nat
  nextPaId : Nat
deriving DecidableEq

/-- trips.routes.ts: the lock TTL constant, `2 * 60 * 1000` ms. -/
def lockTtlMs : Nat := 2 * 60 * 1000

/-- The conditional-acquire predicate of `prisma.trip.updateMany` in the
regenerate route: row matches when its id and userId match and
`regenLockUntil` is null or strictly in the past (`lt: now`). -/
def canAcquire (now uid tid : Nat) (t : Trip) : Bool :=
  t.id == tid && t.userId == uid &&
    (match t.regenLockUntil with
     | none => true
     | some u => decide (u < now))

/-- The atomic conditional write acquiring the regeneration lock: set
`regenLockUntil := now + lockTtlMs` on every matching row, and report the
number of affected rows (`lockResult.count`). -/
def acquireLock (db : DB) (now uid tid : Nat) : DB × Nat :=
  ({ db with
      trips := db.trips.map (fun t =>
        if canAcquire now uid tid t then
          { t with regenLockUntil := some (now + lockTtlMs) }
        else t) },
   (db.trips.filter (canAcquire now uid tid)).length)

/-- The finally-block unlock of the regenerate route:
`updateMany where id = tid and userId = uid, set regenLockUntil null`.
It is not conditioned on holding the lock. -/
def releaseLock (db : DB) (uid tid : Nat) : DB :=
  { db with
      trips := db.trips.map (fun t =>
        if t.id == tid && t.userId == uid then
          { t with regenLockUntil := none }
        else t) }

/-- `prisma.trip.findUnique where id = tid` over the modelled store. -/
def findTrip (db : DB) (tid : Nat) : Option Trip :=
  db.trips.find? (fun t => t.id == tid)

/-! ## The replace transaction body (regenerate route, step 5) -/

/-- Delete the trip's old plan: collect the trip's DayPlan ids; when nonempty,
`plannedActivity.deleteMany where dayPlanId in ids` then
`dayPlan.deleteMany where tripId = tid`. -/
def deleteOldPlan (tid : Nat) (db : DB) : DB :=
  let ids := (db.dayPlans.filter (fun dp => dp.tripId == tid)).map (fun dp => dp.id)
  if ids.isEmpty then db
  else
    { db with
        plannedActivities :=
          db.plannedActivities.filter (fun pa => !(ids.contains pa.dayPlanId)),
        dayPlans := db.dayPlans.filter (fun dp => !(dp.tripId == tid)) }

/-- `trip.update where id = tid, data interests` (run only when the effective
interests differ from the stored ones). -/
def updateTripInterests (tid : Nat) (eff : String) (db : DB) : DB :=
  { db with
      trips := db.trips.map (fun t =>
        if t.id == tid then { t with interests := eff } else t) }

/-- The `for (let d = 1; d <= daysCount; d++) dayPlan.create` loop, returning
the created rows in creation order (`newDayPlans`). -/
def createDayPlansFrom (tid d : Nat) : Nat → DB → DB × List DayPlanRow
  | 0, db => (db, [])
  | Nat.succ n, db =>
    let row : DayPlanRow := ⟨db.nextDayPlanId, tid, d⟩
    let db1 : DB :=
      { db with dayPlans := db.dayPlans ++ [row],
                nextDayPlanId := db.nextDayPlanId + 1 }
    let rec2 := createDayPlansFrom tid (d + 1) n db1
    (rec2.1, row :: rec2.2)

/-- The inner `for (let i = 0; ...) plannedActivity.create` loop for one day:
order index is the 1-based position (`orderIndex: i + 1`). -/
def createPAsForDayFrom (dpId i : Nat) : List Activity → DB → DB
  | [], db => db
  | a :: rest, db =>
    let row : PlannedActivityRow := ⟨db.nextPaId, dpId, a.id, i + 1⟩
    createPAsForDayFrom dpId (i + 1) rest
      { db with plannedActivities := db.plannedActivities ++ [row],
                nextPaId := db.nextPaId + 1 }

/-- The outer `for (let d = 1; d <= daysCount; d++)` loop pairing
`newDayPlans[d-1]` with `plan.days[d-1] ?? []`. -/
def createAllPAs : List DayPlanRow → List (List Activity) → DB → DB
  | [], _, db => db
  | dp :: dps, planDays, db =>
    let db1 := createPAsForDayFrom dp.id 0 (planDays.headD []) db
    createAllPAs dps planDays.tail db1

/-- The whole replace-transaction body of the regenerate route (success path):
delete the old plan, update interests when overridden, create fresh DayPlans
for day numbers 1..daysCount, create PlannedActivities from the plan. -/
def regenReplace (t : Trip) (eff : String) (plan : ItineraryPlan) (db : DB) : DB :=
  let db1 := deleteOldPlan t.id db
  let db2 := if eff != t.interests then updateTripInterests t.id eff db1 else db1
  let credp := createDayPlansFrom t.id 1 t.daysCount db2
  createAllPAs credp.2 plan.days credp.1

/-- The `activities.length === 0` fallback of the regenerate route: synthesize
an all-empty plan with the fixed warning instead of invoking the engine
(the engine is passed as a parameter to make that independence explicit; the
route instantiates it with `generateItinerary`). -/
def regenPlan (engine : List Activity → Nat → String → ItineraryPlan)
    (activities : List Activity) (daysCount : Nat) (interests : String) :
    ItineraryPlan :=
  if activities.length == 0 then
    { days := List.replicate daysCount [],
      warning := some "No activities found for destination" }
  else engine activities daysCount interests

/-! ## The regenerate request handler -/

/-- Responses the regenerate handler can produce (by HTTP status). -/
inductive RegenResp where
  | notFound
  | forbidden
  | conflict
  | badRequest
  | serverError
  | ok (warning : Option String)
deriving DecidableEq

/-- The try-block of POST /:id/regenerate (after the id-shape guard): load the
trip (404/403), conditionally acquire the lock (409 on zero affected rows),
validate the optional interests override (400), fetch the destination catalog,
build the plan (empty-catalog fallback or engine), then run the replace
transaction.  `workFails` injects a fault in the regeneration work (the
allocation or the persistence transaction raising), which the catch block maps
to a 500 with the transaction rolled back. -/
def regenerateTryBody (db : DB) (now uid tid : Nat) (override : Option String)
    (workFails : Bool) : RegenResp × DB :=
  match findTrip db tid with
  | none => (.notFound, db)
  | some base =>
    if base.userId != uid then (.forbidden, db)
    else
      let acq := acquireLock db now uid tid
      let db1 := acq.1
      if acq.2 == 0 then (.conflict, db1)
      else
        let overrideInvalid :=
          match override with
          | some s => s.trim == ""
          | none => false
        if overrideInvalid then (.badRequest, db1)
        else
          let eff :=
            match override with
            | some s => if s.trim != "" then s.trim else base.interests
            | none => base.interests
          let acts := db1.activities.filter (fun a => a.destination == base.destination)
          let plan := regenPlan generateItinerary acts base.daysCount eff
          if workFails then (.serverError, db1)
          else (.ok plan.warning, regenReplace base eff plan db1)

/-- The full POST /:id/regenerate handler body: the try block followed by the
finally block, whose best-effort unlock clears `regenLockUntil` on the trip
(matched only by id and userId) and swallows its own failures
(`unlockFails` injects such a failure: the write is lost, the response is
unchanged). -/
def regenerate (db : DB) (now uid tid : Nat) (override : Option String)
    (workFails unlockFails : Bool) : RegenResp × DB :=
  let r := regenerateTryBody db now uid tid override workFails
  if unlockFails then r else (r.1, releaseLock r.2 uid tid)

/-! ## Lock state machine lemmas -/

/-- Trip ids are unique in the store (primary key). -/
def UniqueTripIds (db : DB) : Prop :=
  db.trips.Pairwise (fun a b => a.id ≠ b.id)

/-- The Unlocked state of the conceptual lock state machine: lock expiry
absent or strictly in the past. -/
def Unlocked (now : Nat) (t : Trip) : Prop :=
  t.regenLockUntil = none ∨ ∃ u, t.regenLockUntil = some u ∧ u < now

lemma canAcquire_eq_true_iff (now uid tid : Nat) (t : Trip) :
    canAcquire now uid tid t = true ↔
      t.id = tid ∧ t.userId = uid ∧ Unlocked now t := by
  unfold canAcquire Unlocked
  cases h : t.regenLockUntil with
  | none => simp
  | some u => simp [h, and_assoc]

lemma mem_ne_of_uniqueIds {db : DB} {t u : Trip} (hu : UniqueTripIds db)
    (ht : t ∈ db.trips) (hmu : u ∈ db.trips) (hne : u ≠ t) : u.id ≠ t.id := by
  have hsymm : Symmetric (fun a b : Trip => a.id ≠ b.id) := by
    intro a b h
    exact fun e => h e.symm
  exact (hu.forall hsymm) hmu ht hne

lemma find?_map_idPreserving (l : List Trip) (f : Trip → Trip)
    (hf : ∀ t, (f t).id = t.id) (tid : Nat) :
    (l.map f).find? (fun t => t.id == tid) = (l.find? (fun t => t.id == tid)).map f := by
  induction l with
  | nil => rfl
  | cons a l ih =>
    by_cases h : a.id = tid
    · simp [List.find?, hf, h]
    · simp only [List.map_cons, List.find?]
      rw [hf a]
      have : (a.id == tid) = false := by simpa using h
      rw [this]
      exact ih

lemma find?_eq_some_of_mem_uniqueList {l : List Trip} {t : Trip} {tid : Nat}
    (hu : l.Pairwise (fun a b => a.id ≠ b.id)) (ht : t ∈ l) (hid : t.id = tid) :
    l.find? (fun u => u.id == tid) = some t := by
  induction l with
  | nil => cases ht
  | cons a l ih =>
    rcases List.mem_cons.mp ht with rfl | ht
    · simp [List.find?, hid]
    · have hne : a.id ≠ t.id := (List.pairwise_cons.mp hu).1 t ht
      have hfalse : (a.id == tid) = false := by
        simp only [beq_eq_false_iff_ne, ne_eq]
        exact fun e => hne (hid ▸ e)
      simp only [List.find?, hfalse]
      exact ih (List.pairwise_cons.mp hu).2 ht

lemma find?_eq_some_of_mem_unique {db : DB} {t : Trip} {tid : Nat}
    (hu : UniqueTripIds db) (ht : t ∈ db.trips) (hid : t.id = tid) :
    db.trips.find? (fun u => u.id == tid) = some t :=
  find?_eq_some_of_mem_uniqueList hu ht hid

lemma acquire_count_ne_zero_iff (db : DB) (now uid tid : Nat) :
    (acquireLock db now uid tid).2 ≠ 0 ↔
      ∃ u ∈ db.trips, canAcquire now uid tid u = true := by
  unfold acquireLock
  simp only [ne_eq, List.length_eq_zero, List.filter_eq_nil_iff]
  push_neg
  constructor
  · intro ⟨u, hu, h⟩
    exact ⟨u, hu, h⟩
  · intro ⟨u, hu, h⟩
    exact ⟨u, hu, h⟩

lemma acquire_count_ne_zero_of_unlocked {db : DB} {t : Trip} {now uid tid : Nat}
    (ht : t ∈ db.trips) (hid : t.id = tid) (huid : t.userId = uid)
    (hun : Unlocked now t) : (acquireLock db now uid tid).2 ≠ 0 :=
  (acquire_count_ne_zero_iff db now uid tid).mpr
    ⟨t, ht, (canAcquire_eq_true_iff now uid tid t).mpr ⟨hid, huid, hun⟩⟩

lemma acquire_count_zero_of_locked {db : DB} {t : Trip} {now uid tid : Nat}
    (hu : UniqueTripIds db) (ht : t ∈ db.trips) (hid : t.id = tid)
    (hlocked : ¬ Unlocked now t) : (acquireLock db now uid tid).2 = 0 := by
  by_contra h
  rcases (acquire_count_ne_zero_iff db now uid tid).mp h with ⟨u, hmu, hcan⟩
  rcases (canAcquire_eq_true_iff now uid tid u).mp hcan with ⟨hiu, _, hunl⟩
  by_cases he : u = t
  · exact hlocked (he ▸ hunl)
  · exact mem_ne_of_uniqueIds hu ht hmu he (hid ▸ hiu)

/-- C4: the lock self-expires - acquisition succeeds exactly when the trip's
lock field is absent or its timestamp is strictly in the past, a successful
acquisition stamps the lock with the fixed two-minute TTL from acquisition,
and hence a trip whose lock timestamp lies in the past is acquirable again. -/
theorem lock_acquire_iff_expired (db : DB) (t : Trip) (now uid tid : Nat)
    (hu : UniqueTripIds db) (ht : t ∈ db.trips) (hid : t.id = tid)
    (huid : t.userId = uid) :
    lockTtlMs = 2 * 60 * 1000 ∧
    ((acquireLock db now uid tid).2 ≠ 0 ↔ Unlocked now t) ∧
    ((acquireLock db now uid tid).2 ≠ 0 →
      findTrip (acquireLock db now uid tid).1 tid =
        some { t with regenLockUntil := some (now + lockTtlMs) }) := by
  refine ⟨rfl, ?_, ?_⟩
  · constructor
    · intro h
      by_contra hlocked
      exact h (acquire_count_zero_of_locked hu ht hid hlocked)
    · intro h
      exact acquire_count_ne_zero_of_unlocked ht hid huid h
  · intro h
    have hun : Unlocked now t := by
      by_contra hlocked
      exact h (acquire_count_zero_of_locked hu ht hid hlocked)
    have hcan : canAcquire now uid tid t = true :=
      (canAcquire_eq_true_iff now uid tid t).mpr ⟨hid, huid, hun⟩
    unfold findTrip acquireLock
    have hf : ∀ u : Trip,
        ((if canAcquire now uid tid u then
            { u with regenLockUntil := some (now + lockTtlMs) } else u) : Trip).id = u.id := by
      intro u
      split <;> rfl
    rw [find?_map_idPreserving db.trips _ hf tid,
      find?_eq_some_of_mem_unique hu ht hid]
    simp [hcan]

/-- Witness data: one owned trip in the store, unlocked. -/
def tripA : Trip := ⟨1, 7, "Paris", 2, none, "culture, nature", none⟩

/-- Witness data: a second user's trip with a different id. -/
def tripB : Trip := ⟨2, 8, "Rome", 3, some 100, "gastronomy", some 5000⟩

/-- Witness store for the lock theorems. -/
def dbW : DB := ⟨[tripA, tripB], [], [], [], 3, 1, 1⟩

/-- Witness for C4 at a concrete store. -/
theorem lock_acquire_iff_expired_witness :
    (UniqueTripIds dbW ∧ tripA ∈ dbW.trips ∧ tripA.id = 1 ∧ tripA.userId = 7) ∧
    (lockTtlMs = 2 * 60 * 1000 ∧
      ((acquireLock dbW 1000 7 1).2 ≠ 0 ↔ Unlocked 1000 tripA) ∧
      ((acquireLock dbW 1000 7 1).2 ≠ 0 →
        findTrip (acquireLock dbW 1000 7 1).1 1 =
          some { tripA with regenLockUntil := some (1000 + lockTtlMs) })) :=
  ⟨⟨by unfold UniqueTripIds; decide, by decide, rfl, rfl⟩,
    lock_acquire_iff_expired dbW tripA 1000 7 1 (by unfold UniqueTripIds; decide)
      (by decide) rfl rfl⟩

/-! ## Shape of the handler's effect on the Trip table -/

/-- A row transformation that keeps primary key and owner. -/
def IdUserPreserving (f : Trip → Trip) : Prop :=
  ∀ t, (f t).id = t.id ∧ (f t).userId = t.userId

lemma createDayPlansFrom_trips (tid : Nat) :
    ∀ (n d : Nat) (db : DB), (createDayPlansFrom tid d n db).1.trips = db.trips := by
  intro n
  induction n with
  | zero => intro d db; rfl
  | succ n ih => intro d db; exact ih (d + 1) _

lemma createPAsForDayFrom_trips (dpId : Nat) :
    ∀ (items : List Activity) (i : Nat) (db : DB),
      (createPAsForDayFrom dpId i items db).trips = db.trips := by
  intro items
  induction items with
  | nil => intro i db; rfl
  | cons a rest ih => intro i db; exact ih (i + 1) _

lemma createAllPAs_trips :
    ∀ (dps : List DayPlanRow) (planDays : List (List Activity)) (db : DB),
      (createAllPAs dps planDays db).trips = db.trips := by
  intro dps
  induction dps with
  | nil => intro planDays db; rfl
  | cons dp dps ih =>
    intro planDays db
    rw [createAllPAs, ih, createPAsForDayFrom_trips]

lemma deleteOldPlan_trips (tid : Nat) (db : DB) :
    (deleteOldPlan tid db).trips = db.trips := by
  simp only [deleteOldPlan]
  split <;> rfl

/-- The interests-overridden row update inside the replace transaction. -/
def interestsUpd (tid : Nat) (eff : String) (u : Trip) : Trip :=
  if u.id == tid then { u with interests := eff } else u

lemma interestsUpd_preserving (tid : Nat) (eff : String) :
    IdUserPreserving (interestsUpd tid eff) := by
  intro u
  unfold interestsUpd
  constructor <;> (split <;> rfl)

lemma updateTripInterests_trips (tid : Nat) (eff : String) (db : DB) :
    (updateTripInterests tid eff db).trips = db.trips.map (interestsUpd tid eff) := rfl

lemma regenReplace_trips_shape (t : Trip) (eff : String) (plan : ItineraryPlan)
    (db : DB) :
    ∃ g, IdUserPreserving g ∧ (regenReplace t eff plan db).trips = db.trips.map g := by
  unfold regenReplace
  rw [createAllPAs_trips, createDayPlansFrom_trips]
  split
  · refine ⟨interestsUpd t.id eff, interestsUpd_preserving t.id eff, ?_⟩
    rw [updateTripInterests_trips, deleteOldPlan_trips]
  · refine ⟨fun u => u, fun u => ⟨rfl, rfl⟩, ?_⟩
    rw [deleteOldPlan_trips]
    simp

/-- The acquire-branch row update. -/
def acquireUpd (now uid tid : Nat) (t : Trip) : Trip :=
  if canAcquire now uid tid t then
    { t with regenLockUntil := some (now + lockTtlMs) }
  else t

lemma acquireUpd_preserving (now uid tid : Nat) :
    IdUserPreserving (acquireUpd now uid tid) := by
  intro t
  unfold acquireUpd
  constructor <;> (split <;> rfl)

lemma acquireLock_trips (db : DB) (now uid tid : Nat) :
    (acquireLock db now uid tid).1.trips = db.trips.map (acquireUpd now uid tid) := rfl

/-- The release row update of the finally block. -/
def releaseUpd (uid tid : Nat) (t : Trip) : Trip :=
  if t.id == tid && t.userId == uid then { t with regenLockUntil := none } else t

lemma releaseUpd_preserving (uid tid : Nat) : IdUserPreserving (releaseUpd uid tid) := by
  intro t
  unfold releaseUpd
  constructor <;> (split <;> rfl)

lemma releaseLock_trips (db : DB) (uid tid : Nat) :
    (releaseLock db uid tid).trips = db.trips.map (releaseUpd uid tid) := rfl

lemma tryBody_trips_shape (db : DB) (now uid tid : Nat) (override : Option String)
    (workFails : Bool) :
    ∃ f, IdUserPreserving f ∧
      (regenerateTryBody db now uid tid override workFails).2.trips = db.trips.map f := by
  unfold regenerateTryBody
  cases hfind : findTrip db tid with
  | none => exact ⟨fun u => u, fun u => ⟨rfl, rfl⟩, (List.map_id _).symm⟩
  | some base =>
    simp only
    split
    · exact ⟨fun u => u, fun u => ⟨rfl, rfl⟩, (List.map_id _).symm⟩
    · split
      · exact ⟨acquireUpd now uid tid, acquireUpd_preserving now uid tid,
          acquireLock_trips db now uid tid⟩
      · split
        · exact ⟨acquireUpd now uid tid, acquireUpd_preserving now uid tid,
            acquireLock_trips db now uid tid⟩
        · split
          · exact ⟨acquireUpd now uid tid, acquireUpd_preserving now uid tid,
              acquireLock_trips db now uid tid⟩
          · rcases regenReplace_trips_shape base _ _ (acquireLock db now uid tid).1 with
              ⟨g, hg, hgeq⟩
            refine ⟨fun u => g (acquireUpd now uid tid u), ?_, ?_⟩
            · intro u
              exact ⟨(hg _).1.trans (acquireUpd_preserving now uid tid u).1,
                (hg _).2.trans (acquireUpd_preserving now uid tid u).2⟩
            · rw [hgeq, acquireLock_trips, List.map_map]
              rfl

lemma uniqueTripIds_map {db db' : DB} (hu : UniqueTripIds db) (f : Trip → Trip)
    (hf : ∀ t, (f t).id = t.id) (heq : db'.trips = db.trips.map f) :
    UniqueTripIds db' := by
  unfold UniqueTripIds at *
  rw [heq, List.pairwise_map]
  refine hu.imp ?_
  intro a b h
  rw [hf a, hf b]
  exact h

/-- After the finally block of a full handler run (with the unlock write not
itself failing), the trip's lock field is null, whatever path the try block
took. -/
lemma regenerate_final_lock_none {db : DB} {t : Trip} {now uid tid : Nat}
    (hu : UniqueTripIds db) (ht : t ∈ db.trips) (hid : t.id = tid)
    (huid : t.userId = uid) (override : Option String) (workFails : Bool) :
    ∃ t', findTrip (regenerate db now uid tid override workFails false).2 tid = some t' ∧
      t'.regenLockUntil = none ∧ t'.id = tid ∧ t'.userId = uid ∧
      t' ∈ (regenerate db now uid tid override workFails false).2.trips ∧
      UniqueTripIds (regenerate db now uid tid override workFails false).2 := by
  rcases tryBody_trips_shape db now uid tid override workFails with ⟨f, hf, hfeq⟩
  have htrips : (regenerate db now uid tid override workFails false).2.trips
      = db.trips.map (fun u => releaseUpd uid tid (f u)) := by
    show (releaseLock (regenerateTryBody db now uid tid override workFails).2 uid tid).trips
      = _
    rw [releaseLock_trips, hfeq, List.map_map]
    rfl
  have hpres : ∀ u : Trip, ((releaseUpd uid tid (f u)) : Trip).id = u.id := by
    intro u
    exact (releaseUpd_preserving uid tid (f u)).1.trans (hf u).1
  refine ⟨releaseUpd uid tid (f t), ?_, ?_, ?_, ?_, ?_, ?_⟩
  · unfold findTrip
    rw [htrips, find?_map_idPreserving db.trips _ hpres tid,
      find?_eq_some_of_mem_unique hu ht hid]
    rfl
  · unfold releaseUpd
    have hcond : ((f t).id == tid && (f t).userId == uid) = true := by
      simp [(hf t).1, (hf t).2, hid, huid]
    rw [hcond]
    simp
  · exact (hpres t).trans hid
  · exact (releaseUpd_preserving uid tid (f t)).2.trans ((hf t).2.trans huid)
  · rw [htrips]
    exact List.mem_map_of_mem _ ht
  · exact uniqueTripIds_map hu _ hpres htrips

/-- The response of the full handler equals the response of its try block (the
finally block never changes the response). -/
lemma regenerate_fst (db : DB) (now uid tid : Nat) (override : Option String)
    (workFails unlockFails : Bool) :
    (regenerate db now uid tid override workFails unlockFails).1 =
      (regenerateTryBody db now uid tid override workFails).1 := by
  unfold regenerate
  split <;> rfl

/-- A request hitting a held (unexpired) lock is rejected with the 409
conflict response. -/
lemma regen_conflict_of_locked {db : DB} {t : Trip} {now uid tid : Nat}
    (hu : UniqueTripIds db) (ht : t ∈ db.trips) (hid : t.id = tid)
    (huid : t.userId = uid) (hlocked : ¬ Unlocked now t)
    (override : Option String) (workFails unlockFails : Bool) :
    (regenerate db now uid tid override workFails unlockFails).1 =
      RegenResp.conflict := by
  have hcount : (acquireLock db now uid tid).2 = 0 :=
    acquire_count_zero_of_locked hu ht hid hlocked
  have hfind : findTrip db tid = some t := find?_eq_some_of_mem_unique hu ht hid
  rw [regenerate_fst]
  unfold regenerateTryBody
  rw [hfind]
  simp [huid, hcount]

/-- A request by the owner on an existing trip in the Unlocked state, with no
interests override and no injected fault, ends in a 200 response. -/
lemma regen_ok_of_unlocked {db : DB} {t : Trip} {now uid tid : Nat}
    (hu : UniqueTripIds db) (ht : t ∈ db.trips) (hid : t.id = tid)
    (huid : t.userId = uid) (hunl : Unlocked now t) (unlockFails : Bool) :
    ∃ w, (regenerate db now uid tid none false unlockFails).1 = RegenResp.ok w := by
  have hfind : findTrip db tid = some t := find?_eq_some_of_mem_unique hu ht hid
  have hcount : (acquireLock db now uid tid).2 ≠ 0 :=
    acquire_count_ne_zero_of_unlocked ht hid huid hunl
  have hcount' : ((acquireLock db now uid tid).2 == 0) = false := by
    simpa using hcount
  rw [regenerate_fst]
  unfold regenerateTryBody
  rw [hfind]
  simp only [bne_self_eq_false, huid, Bool.false_eq_true, if_false, hcount',
    Bool.if_false_left]
  exact ⟨_, rfl⟩

/-- C2: on completion of the regeneration work for an existing owned trip -
success or failure, the injected fault `workFails` covering faults raised by
the allocation or by the persistence transaction - the finally block clears
the trip's regeneration lock field on every exit path, and a failure of the
unlock write itself (`unlockFails`) is swallowed: the caller-visible
response is unchanged. -/
theorem regen_unlock_every_exit (db : DB) (t : Trip) (now uid tid : Nat)
    (override : Option String) (workFails : Bool)
    (hu : UniqueTripIds db) (ht : t ∈ db.trips) (hid : t.id = tid)
    (huid : t.userId = uid) :
    (∃ t', findTrip (regenerate db now uid tid override workFails false).2 tid = some t' ∧
        t'.regenLockUntil = none) ∧
    (regenerate db now uid tid override workFails true).1 =
      (regenerate db now uid tid override workFails false).1 := by
  refine ⟨?_, ?_⟩
  · rcases regenerate_final_lock_none hu ht hid huid override workFails with
      ⟨t', h1, h2, _⟩
    exact ⟨t', h1, h2⟩
  · rw [regenerate_fst, regenerate_fst]

/-- Witness for C2: an owned trip, with a fault injected into the
regeneration work. -/
theorem regen_unlock_every_exit_witness :
    (UniqueTripIds dbW ∧ tripA ∈ dbW.trips ∧ tripA.id = 1 ∧ tripA.userId = 7) ∧
    ((∃ t', findTrip (regenerate dbW 1000 7 1 (some " beach ") true false).2 1 = some t' ∧
        t'.regenLockUntil = none) ∧
      (regenerate dbW 1000 7 1 (some " beach ") true true).1 =
        (regenerate dbW 1000 7 1 (some " beach ") true false).1) :=
  ⟨⟨by unfold UniqueTripIds; decide, by decide, rfl, rfl⟩,
    regen_unlock_every_exit dbW tripA 1000 7 1 (some " beach ") true
      (by unfold UniqueTripIds; decide) (by decide) rfl rfl⟩

/-- C9: the finally-block cleanup runs even on the 409 conflict path and is
matched only on trip id and user id, not on lock ownership - so a rejected
competing request leaves the trip's lock field null although another
request's regeneration (which installed the still-unexpired lock `some u`,
`now ≤ u`) is still in flight. -/
theorem regen_conflict_still_clears_lock (db : DB) (t : Trip) (now uid tid u : Nat)
    (override : Option String) (workFails : Bool)
    (hu : UniqueTripIds db) (ht : t ∈ db.trips) (hid : t.id = tid)
    (huid : t.userId = uid) (hheld : t.regenLockUntil = some u) (hfut : now ≤ u) :
    (regenerate db now uid tid override workFails false).1 = RegenResp.conflict ∧
    ∃ t', findTrip (regenerate db now uid tid override workFails false).2 tid = some t' ∧
      t'.regenLockUntil = none := by
  have hlocked : ¬ Unlocked now t := by
    intro h
    rcases h with h | ⟨u', hu', hlt⟩
    · rw [hheld] at h; cases h
    · rw [hheld] at hu'
      cases hu'
      omega
  refine ⟨regen_conflict_of_locked hu ht hid huid hlocked override workFails false, ?_⟩
  rcases regenerate_final_lock_none hu ht hid huid override workFails with
    ⟨t', h1, h2, _⟩
  exact ⟨t', h1, h2⟩

/-- Witness data: the same store as `dbW` but with tripA's lock held until
timestamp 5000. -/
def dbWLocked : DB :=
  ⟨[{ tripA with regenLockUntil := some 5000 }, tripB], [], [], [], 3, 1, 1⟩

/-- Witness for C9: a competing request at time 1000 against a lock expiring
at 5000 is rejected with 409 yet nulls the lock. -/
theorem regen_conflict_still_clears_lock_witness :
    (UniqueTripIds dbWLocked ∧
      ({ tripA with regenLockUntil := some 5000 } : Trip) ∈ dbWLocked.trips ∧
      (1000:Nat) ≤ 5000) ∧
    ((regenerate dbWLocked 1000 7 1 none false false).1 = RegenResp.conflict ∧
      ∃ t', findTrip (regenerate dbWLocked 1000 7 1 none false false).2 1 = some t' ∧
        t'.regenLockUntil = none) :=
  ⟨⟨by unfold UniqueTripIds; decide, by decide, by decide⟩,
    regen_conflict_still_clears_lock dbWLocked
      { tripA with regenLockUntil := some 5000 } 1000 7 1 5000 none false
      (by unfold UniqueTripIds; decide) (by decide) rfl rfl rfl (by decide)⟩

/-- C1: lock mutual exclusion.  Starting from an owned trip in the Unlocked
state: the first serialized acquisition affects a nonzero row count and the
winning request ends in a 200; a second acquisition attempted while the
winner's lock is installed affects zero rows, and a competing full request in
that state is rejected with the 409 conflict; after the winner's request
completes (its finally block releasing the lock), a subsequent request
succeeds again with a 200. -/
theorem regen_mutual_exclusion (db : DB) (t : Trip) (now uid tid : Nat)
    (hu : UniqueTripIds db) (ht : t ∈ db.trips) (hid : t.id = tid)
    (huid : t.userId = uid) (hunl : Unlocked now t) :
    (acquireLock db now uid tid).2 ≠ 0 ∧
    (∃ w, (regenerate db now uid tid none false false).1 = RegenResp.ok w) ∧
    (acquireLock (acquireLock db now uid tid).1 now uid tid).2 = 0 ∧
    (regenerate (acquireLock db now uid tid).1 now uid tid none false false).1 =
      RegenResp.conflict ∧
    (∃ w, (regenerate (regenerate db now uid tid none false false).2
        now uid tid none false false).1 = RegenResp.ok w) := by
  have hcan : canAcquire now uid tid t = true :=
    (canAcquire_eq_true_iff now uid tid t).mpr ⟨hid, huid, hunl⟩
  -- the winner's installed-lock row
  have ht1eq : acquireUpd now uid tid t = { t with regenLockUntil := some (now + lockTtlMs) } := by
    unfold acquireUpd
    rw [hcan]
    simp
  have ht1mem : acquireUpd now uid tid t ∈ (acquireLock db now uid tid).1.trips := by
    rw [acquireLock_trips]
    exact List.mem_map_of_mem _ ht
  have hu1 : UniqueTripIds (acquireLock db now uid tid).1 :=
    uniqueTripIds_map hu _ (fun u => (acquireUpd_preserving now uid tid u).1)
      (acquireLock_trips db now uid tid)
  have ht1id : (acquireUpd now uid tid t).id = tid :=
    (acquireUpd_preserving now uid tid t).1.trans hid
  have ht1uid : (acquireUpd now uid tid t).userId = uid :=
    (acquireUpd_preserving now uid tid t).2.trans huid
  have ht1locked : ¬ Unlocked now (acquireUpd now uid tid t) := by
    rw [ht1eq]
    intro h
    rcases h with h | ⟨u', hu', hlt⟩
    · cases h
    · cases hu'
      unfold lockTtlMs at hlt
      omega
  refine ⟨acquire_count_ne_zero_of_unlocked ht hid huid hunl,
    regen_ok_of_unlocked hu ht hid huid hunl false,
    acquire_count_zero_of_locked hu1 ht1mem ht1id ht1locked,
    regen_conflict_of_locked hu1 ht1mem ht1id ht1uid ht1locked none false false,
    ?_⟩
  rcases regenerate_final_lock_none hu ht hid huid none false with
    ⟨t', _, hlock', hid', huid', hmem', hu'⟩
  exact regen_ok_of_unlocked hu' hmem' hid' huid' (Or.inl hlock') false

/-- Witness for C1 at a concrete store and timestamp. -/
theorem regen_mutual_exclusion_witness :
    (UniqueTripIds dbW ∧ tripA ∈ dbW.trips ∧ Unlocked 1000 tripA) ∧
    ((acquireLock dbW 1000 7 1).2 ≠ 0 ∧
      (∃ w, (regenerate dbW 1000 7 1 none false false).1 = RegenResp.ok w) ∧
      (acquireLock (acquireLock dbW 1000 7 1).1 1000 7 1).2 = 0 ∧
      (regenerate (acquireLock dbW 1000 7 1).1 1000 7 1 none false false).1 =
        RegenResp.conflict ∧
      (∃ w, (regenerate (regenerate dbW 1000 7 1 none false false).2
          1000 7 1 none false false).1 = RegenResp.ok w)) :=
  ⟨⟨by unfold UniqueTripIds; decide, by decide, Or.inl rfl⟩,
    regen_mutual_exclusion dbW tripA 1000 7 1
      (by unfold UniqueTripIds; decide) (by decide) rfl rfl (Or.inl rfl)⟩

/-! ## Closed forms for the create loops of the (re)generation transaction -/

/-- Closed form of the DayPlan rows the creation loop appends: consecutive
ids from `base`, day numbers from `d`. -/
def mkDayPlanRows (base tid d : Nat) : Nat → List DayPlanRow
  | 0 => []
  | Nat.succ n => ⟨base, tid, d⟩ :: mkDayPlanRows (base + 1) tid (d + 1) n

/-- Closed form of the PlannedActivity rows one day's loop appends:
consecutive ids from `base`, order indices from `i + 1`. -/
def mkPARows (base dpId i : Nat) : List Activity → List PlannedActivityRow
  | [] => []
  | a :: rest => ⟨base, dpId, a.id, i + 1⟩ :: mkPARows (base + 1) dpId (i + 1) rest

/-- Closed form of the PlannedActivity rows of the whole outer loop. -/
def mkAllPAs (base : Nat) : List DayPlanRow → List (List Activity) → List PlannedActivityRow
  | [], _ => []
  | dp :: dps, planDays =>
    mkPARows base dp.id 0 (planDays.headD []) ++
      mkAllPAs (base + (planDays.headD []).length) dps planDays.tail

/-- Total number of PlannedActivity rows the outer loop creates. -/
def totalPAs : List DayPlanRow → List (List Activity) → Nat
  | [], _ => 0
  | _ :: dps, planDays => (planDays.headD []).length + totalPAs dps planDays.tail

lemma createDayPlansFrom_eq (tid : Nat) :
    ∀ (n d : Nat) (db : DB),
      createDayPlansFrom tid d n db =
        ({ db with
            dayPlans := db.dayPlans ++ mkDayPlanRows db.nextDayPlanId tid d n,
            nextDayPlanId := db.nextDayPlanId + n },
         mkDayPlanRows db.nextDayPlanId tid d n) := by
  intro n
  induction n with
  | zero => intro d db; simp [createDayPlansFrom, mkDayPlanRows]
  | succ n ih =>
    intro d db
    simp only [createDayPlansFrom]
    rw [ih (d + 1)]
    simp [mkDayPlanRows, List.append_assoc]
    omega

lemma createPAsForDayFrom_eq (dpId : Nat) :
    ∀ (items : List Activity) (i : Nat) (db : DB),
      createPAsForDayFrom dpId i items db =
        { db with
            plannedActivities := db.plannedActivities ++ mkPARows db.nextPaId dpId i items,
            nextPaId := db.nextPaId + items.length } := by
  intro items
  induction items with
  | nil => intro i db; simp [createPAsForDayFrom, mkPARows]
  | cons a rest ih =>
    intro i db
    simp only [createPAsForDayFrom]
    rw [ih (i + 1)]
    simp [mkPARows, List.append_assoc]
    omega

lemma createAllPAs_eq :
    ∀ (dps : List DayPlanRow) (planDays : List (List Activity)) (db : DB),
      createAllPAs dps planDays db =
        { db with
            plannedActivities := db.plannedActivities ++ mkAllPAs db.nextPaId dps planDays,
            nextPaId := db.nextPaId + totalPAs dps planDays } := by
  intro dps
  induction dps with
  | nil => intro planDays db; simp [createAllPAs, mkAllPAs, totalPAs]
  | cons dp dps ih =>
    intro planDays db
    simp only [createAllPAs]
    rw [createPAsForDayFrom_eq, ih]
    simp [mkAllPAs, totalPAs, List.append_assoc]
    omega

lemma mkDayPlanRows_map_dayNumber :
    ∀ (n base tid d : Nat),
      (mkDayPlanRows base tid d n).map (fun dp => dp.dayNumber) = List.range' d n := by
  intro n
  induction n with
  | zero => intro base tid d; rfl
  | succ n ih =>
    intro base tid d
    rw [mkDayPlanRows, List.range'_succ]
    simp only [List.map_cons]
    rw [ih]

lemma mkDayPlanRows_tripId :
    ∀ (n base tid d : Nat), ∀ dp ∈ mkDayPlanRows base tid d n, dp.tripId = tid := by
  intro n
  induction n with
  | zero => intro base tid d dp h; cases h
  | succ n ih =>
    intro base tid d dp h
    rcases List.mem_cons.mp h with rfl | h
    · rfl
    · exact ih (base + 1) tid (d + 1) dp h

lemma mkDayPlanRows_id_bounds :
    ∀ (n base tid d : Nat), ∀ dp ∈ mkDayPlanRows base tid d n,
      base ≤ dp.id ∧ dp.id < base + n := by
  intro n
  induction n with
  | zero => intro base tid d dp h; cases h
  | succ n ih =>
    intro base tid d dp h
    rcases List.mem_cons.mp h with rfl | h
    · refine ⟨Nat.le_refl _, ?_⟩
      show base < base + (n + 1)
      omega
    · have := ih (base + 1) tid (d + 1) dp h
      omega

lemma mkDayPlanRows_mem_of_lt :
    ∀ (n k base tid d : Nat), k < n →
      (⟨base + k, tid, d + k⟩ : DayPlanRow) ∈ mkDayPlanRows base tid d n := by
  intro n
  induction n with
  | zero => intro k base tid d hk; omega
  | succ n ih =>
    intro k base tid d hk
    cases k with
    | zero => simp [mkDayPlanRows]
    | succ k =>
      rw [mkDayPlanRows]
      refine List.mem_cons_of_mem _ ?_
      have hmem := ih k (base + 1) tid (d + 1) (by omega)
      have h1 : base + (k + 1) = base + 1 + k := by omega
      have h2 : d + (k + 1) = d + 1 + k := by omega
      rw [h1, h2]
      exact hmem

lemma mkPARows_dayPlanId :
    ∀ (items : List Activity) (base dpId i : Nat),
      ∀ pa ∈ mkPARows base dpId i items, pa.dayPlanId = dpId := by
  intro items
  induction items with
  | nil => intro base dpId i pa h; cases h
  | cons a rest ih =>
    intro base dpId i pa h
    rcases List.mem_cons.mp h with rfl | h
    · rfl
    · exact ih (base + 1) dpId (i + 1) pa h

lemma mkPARows_map_orderIndex :
    ∀ (items : List Activity) (base dpId i : Nat),
      (mkPARows base dpId i items).map (fun pa => pa.orderIndex) =
        List.range' (i + 1) items.length := by
  intro items
  induction items with
  | nil => intro base dpId i; rfl
  | cons a rest ih =>
    intro base dpId i
    rw [mkPARows, List.length_cons, List.range'_succ]
    simp only [List.map_cons]
    rw [ih]

lemma mkPARows_map_activityId :
    ∀ (items : List Activity) (base dpId i : Nat),
      (mkPARows base dpId i items).map (fun pa => pa.activityId) =
        items.map (fun a => a.id) := by
  intro items
  induction items with
  | nil => intro base dpId i; rfl
  | cons a rest ih =>
    intro base dpId i
    simp only [mkPARows, List.map_cons]
    rw [ih]

lemma mkAllPAs_dayPlanIds :
    ∀ (dps : List DayPlanRow) (planDays : List (List Activity)) (base : Nat),
      ∀ pa ∈ mkAllPAs base dps planDays, ∃ dp ∈ dps, pa.dayPlanId = dp.id := by
  intro dps
  induction dps with
  | nil => intro planDays base pa h; cases h
  | cons dp dps ih =>
    intro planDays base pa h
    rcases List.mem_append.mp h with h | h
    · exact ⟨dp, List.mem_cons_self _ _, mkPARows_dayPlanId _ _ _ _ pa h⟩
    · rcases ih planDays.tail _ pa h with ⟨dp', hdp', heq⟩
      exact ⟨dp', List.mem_cons_of_mem _ hdp', heq⟩

lemma getD_tail (planDays : List (List Activity)) (k : Nat) :
    planDays.tail.getD k [] = planDays.getD (k + 1) [] := by
  cases planDays with
  | nil => rfl
  | cons d rest => rfl

lemma getD_zero_headD (planDays : List (List Activity)) :
    planDays.headD [] = planDays.getD 0 [] := by
  cases planDays with
  | nil => rfl
  | cons d rest => rfl

end Metroplex

namespace Metroplex

lemma deleteOldPlan_dayPlans_noTrip (tid : Nat) (db : DB) :
    (deleteOldPlan tid db).dayPlans.filter (fun dp => dp.tripId == tid) = [] := by
  simp only [deleteOldPlan]
  split
  · rename_i hempty
    rw [List.isEmpty_iff, List.map_eq_nil_iff] at hempty
    exact hempty
  · simp only
    rw [List.filter_eq_nil_iff]
    intro dp hdp
    have := (List.mem_filter.mp hdp).2
    simp only [Bool.not_eq_eq_eq_not, Bool.not_true] at this
    simp [this]

lemma deleteOldPlan_dayPlans_subset {tid : Nat} {db : DB} {dp : DayPlanRow}
    (h : dp ∈ (deleteOldPlan tid db).dayPlans) : dp ∈ db.dayPlans := by
  revert h
  simp only [deleteOldPlan]
  split
  · exact fun h => h
  · intro h
    exact (List.mem_filter.mp h).1

lemma deleteOldPlan_pas_subset {tid : Nat} {db : DB} {pa : PlannedActivityRow}
    (h : pa ∈ (deleteOldPlan tid db).plannedActivities) : pa ∈ db.plannedActivities := by
  revert h
  simp only [deleteOldPlan]
  split
  · exact fun h => h
  · intro h
    exact (List.mem_filter.mp h).1

lemma deleteOldPlan_counters (tid : Nat) (db : DB) :
    (deleteOldPlan tid db).nextDayPlanId = db.nextDayPlanId ∧
    (deleteOldPlan tid db).nextPaId = db.nextPaId := by
  simp only [deleteOldPlan]
  split <;> exact ⟨rfl, rfl⟩

lemma updateTripInterests_rows (tid : Nat) (eff : String) (db : DB) :
    (updateTripInterests tid eff db).dayPlans = db.dayPlans ∧
    (updateTripInterests tid eff db).plannedActivities = db.plannedActivities ∧
    (updateTripInterests tid eff db).nextDayPlanId = db.nextDayPlanId ∧
    (updateTripInterests tid eff db).nextPaId = db.nextPaId :=
  ⟨rfl, rfl, rfl, rfl⟩

/-- The per-day filter of the created PlannedActivity rows: for position `k`
of the created DayPlans, filtering all created rows by that DayPlan's id
yields exactly that day's block, whose order indices are `1..len` and whose
activity ids are the day's activities in order. -/
lemma filter_mkAllPAs_maps :
    ∀ (n base tid d paBase : Nat) (planDays : List (List Activity)) (k : Nat),
      k < n →
      ((mkAllPAs paBase (mkDayPlanRows base tid d n) planDays).filter
          (fun pa => pa.dayPlanId == base + k)).map (fun pa => pa.orderIndex)
        = List.range' 1 (planDays.getD k []).length ∧
      ((mkAllPAs paBase (mkDayPlanRows base tid d n) planDays).filter
          (fun pa => pa.dayPlanId == base + k)).map (fun pa => pa.activityId)
        = (planDays.getD k []).map (fun a => a.id) := by
  intro n
  induction n with
  | zero => intro base tid d paBase planDays k hk; omega
  | succ n ih =>
    intro base tid d paBase planDays k hk
    rw [mkDayPlanRows, mkAllPAs, List.filter_append]
    cases k with
    | zero =>
      have h1 : (mkPARows paBase base 0 (planDays.headD [])).filter
          (fun pa => pa.dayPlanId == base + 0) =
          mkPARows paBase base 0 (planDays.headD []) := by
        rw [List.filter_eq_self]
        intro pa hpa
        have := mkPARows_dayPlanId _ _ _ _ pa hpa
        simp [this]
      have h2 : (mkAllPAs (paBase + (planDays.headD []).length)
          (mkDayPlanRows (base + 1) tid (d + 1) n) planDays.tail).filter
          (fun pa => pa.dayPlanId == base + 0) = [] := by
        rw [List.filter_eq_nil_iff]
        intro pa hpa
        rcases mkAllPAs_dayPlanIds _ _ _ pa hpa with ⟨dp, hdp, heq⟩
        have hb := mkDayPlanRows_id_bounds _ _ _ _ dp hdp
        simp only [beq_iff_eq]
        omega
      rw [h1, h2, List.append_nil, ← getD_zero_headD]
      exact ⟨mkPARows_map_orderIndex _ _ _ _, mkPARows_map_activityId _ _ _ _⟩
    | succ k =>
      have h1 : (mkPARows paBase base 0 (planDays.headD [])).filter
          (fun pa => pa.dayPlanId == base + (k + 1)) = [] := by
        rw [List.filter_eq_nil_iff]
        intro pa hpa
        have := mkPARows_dayPlanId _ _ _ _ pa hpa
        simp only [beq_iff_eq, this]
        omega
      have harith : base + (k + 1) = (base + 1) + k := by omega
      rw [h1, List.nil_append, harith]
      have := ih (base + 1) tid (d + 1) (paBase + (planDays.headD []).length)
        planDays.tail k (by omega)
      rw [getD_tail] at this
      exact this

/-- Well-formedness of the store's id counters: every DayPlan id, and every
dayPlanId referenced by a PlannedActivity, is below the next-id counter. -/
def DBWellFormed (db : DB) : Prop :=
  (∀ dp ∈ db.dayPlans, dp.id < db.nextDayPlanId) ∧
  (∀ pa ∈ db.plannedActivities, pa.dayPlanId < db.nextDayPlanId)

/-- Core invariant of the shared create loops (used by both the creation
transaction and the regeneration replace transaction): starting from a store
holding no DayPlan row of the trip and no PlannedActivity row referencing an
id at or above the next-DayPlan-id counter, the two loops persist exactly one
DayPlan per day number 1..days, and per day the PlannedActivity rows carry
order indices exactly 1..len matching the plan's activity list in order. -/
lemma createPlan_core (tid days : Nat) (plan : ItineraryPlan) (dbx : DB)
    (hnodp : dbx.dayPlans.filter (fun dp => dp.tripId == tid) = [])
    (hpa : ∀ pa ∈ dbx.plannedActivities, pa.dayPlanId < dbx.nextDayPlanId) :
    (((createAllPAs (createDayPlansFrom tid 1 days dbx).2 plan.days
          (createDayPlansFrom tid 1 days dbx).1).dayPlans.filter
        (fun dp => dp.tripId == tid)).map (fun dp => dp.dayNumber)
      = List.range' 1 days) ∧
    ∀ k, k < days →
      ∃ dp, dp ∈ (createAllPAs (createDayPlansFrom tid 1 days dbx).2 plan.days
          (createDayPlansFrom tid 1 days dbx).1).dayPlans ∧ dp.tripId = tid ∧
        dp.dayNumber = k + 1 ∧
        (((createAllPAs (createDayPlansFrom tid 1 days dbx).2 plan.days
            (createDayPlansFrom tid 1 days dbx).1).plannedActivities.filter
            (fun pa => pa.dayPlanId == dp.id)).map (fun pa => pa.orderIndex)
          = List.range' 1 (plan.days.getD k []).length) ∧
        (((createAllPAs (createDayPlansFrom tid 1 days dbx).2 plan.days
            (createDayPlansFrom tid 1 days dbx).1).plannedActivities.filter
            (fun pa => pa.dayPlanId == dp.id)).map (fun pa => pa.activityId)
          = (plan.days.getD k []).map (fun a => a.id)) := by
  rw [createDayPlansFrom_eq, createAllPAs_eq]
  dsimp only
  constructor
  · rw [List.filter_append]
    have hnew : (mkDayPlanRows dbx.nextDayPlanId tid 1 days).filter
        (fun dp => dp.tripId == tid) = mkDayPlanRows dbx.nextDayPlanId tid 1 days := by
      rw [List.filter_eq_self]
      intro dp hdp
      have := mkDayPlanRows_tripId _ _ _ _ dp hdp
      simp [this]
    rw [hnodp, hnew, List.nil_append, mkDayPlanRows_map_dayNumber]
  · intro k hk
    refine ⟨⟨dbx.nextDayPlanId + k, tid, 1 + k⟩, ?_, rfl, Nat.add_comm 1 k, ?_, ?_⟩
    · refine List.mem_append.mpr (Or.inr ?_)
      exact mkDayPlanRows_mem_of_lt days k dbx.nextDayPlanId tid 1 hk
    · rw [List.filter_append, List.map_append]
      have hold : dbx.plannedActivities.filter
          (fun pa => pa.dayPlanId == dbx.nextDayPlanId + k) = [] := by
        rw [List.filter_eq_nil_iff]
        intro pa hpa2
        have := hpa pa hpa2
        simp only [beq_iff_eq]
        omega
      rw [hold]
      simp only [List.map_nil, List.nil_append]
      exact (filter_mkAllPAs_maps days dbx.nextDayPlanId tid 1
        dbx.nextPaId plan.days k hk).1
    · rw [List.filter_append, List.map_append]
      have hold : dbx.plannedActivities.filter
          (fun pa => pa.dayPlanId == dbx.nextDayPlanId + k) = [] := by
        rw [List.filter_eq_nil_iff]
        intro pa hpa2
        have := hpa pa hpa2
        simp only [beq_iff_eq]
        omega
      rw [hold]
      simp only [List.map_nil, List.nil_append]
      exact (filter_mkAllPAs_maps days dbx.nextDayPlanId tid 1
        dbx.nextPaId plan.days k hk).2

end Metroplex

namespace Metroplex

/-- Witness data: a catalog activity. -/
def actW : Activity := ⟨11, "Paris", "Louvre Museum", "culture", 3, 3⟩

/-- Witness data: a two-day plan placing one activity on day one. -/
def planW : ItineraryPlan := ⟨[[actW]], none⟩

/-! ## The empty-catalog regeneration path (C5) -/

lemma deleteOldPlan_dayPlans_tripId_ne {tid : Nat} {db : DB} :
    ∀ dp ∈ (deleteOldPlan tid db).dayPlans, ¬ dp.tripId = tid := by
  intro dp hdp
  have h := deleteOldPlan_dayPlans_noTrip tid db
  rw [List.filter_eq_nil_iff] at h
  have := h dp hdp
  simpa using this

lemma deleteOldPlan_pas_noTripRefs {tid : Nat} {db : DB} :
    ∀ pa ∈ (deleteOldPlan tid db).plannedActivities,
      ∀ dpOld ∈ db.dayPlans, dpOld.tripId = tid → pa.dayPlanId ≠ dpOld.id := by
  intro pa hpa dpOld hdpOld htrip
  revert hpa
  simp only [deleteOldPlan]
  split
  · rename_i hempty
    rw [List.isEmpty_iff, List.map_eq_nil_iff, List.filter_eq_nil_iff] at hempty
    exfalso
    exact hempty dpOld hdpOld (by simp [htrip])
  · intro hpa
    have hnotin := (List.mem_filter.mp hpa).2
    simp only [Bool.not_eq_eq_eq_not, Bool.not_true] at hnotin
    have hnotmem : pa.dayPlanId ∉
        (db.dayPlans.filter (fun dp => dp.tripId == tid)).map (fun dp => dp.id) := by
      simpa using hnotin
    intro heq
    apply hnotmem
    rw [heq]
    exact List.mem_map_of_mem _ (List.mem_filter.mpr ⟨hdpOld, by simp [htrip]⟩)

lemma mkAllPAs_eq_nil_of_all_empty :
    ∀ (dps : List DayPlanRow) (planDays : List (List Activity)) (base : Nat),
      (∀ d ∈ planDays, d = []) → mkAllPAs base dps planDays = [] := by
  intro dps
  induction dps with
  | nil => intro planDays base _; rfl
  | cons dp dps ih =>
    intro planDays base hall
    rw [mkAllPAs]
    have hhead : planDays.headD [] = [] := by
      cases planDays with
      | nil => rfl
      | cons d rest => exact hall d (List.mem_cons_self _ _)
    have htail : ∀ d ∈ planDays.tail, d = [] := by
      intro d hd
      exact hall d (List.mem_of_mem_tail hd)
    rw [hhead, ih planDays.tail _ htail]
    rfl

lemma replicate_all_empty (n : Nat) :
    ∀ d ∈ List.replicate n ([] : List Activity), d = [] := by
  intro d hd
  exact List.eq_of_mem_replicate hd

/-- The empty plan the route synthesizes for an empty catalog. -/
def emptyCatalogPlan (daysCount : Nat) : ItineraryPlan :=
  { days := List.replicate daysCount [],
    warning := some "No activities found for destination" }

/-- C5 (amended): when the destination catalog is empty the route does not
invoke the allocation engine - whatever engine is plugged in, the synthesized
plan is one empty list per requested day with the fixed warning
"No activities found for destination" - and persisting that plan still clears
the old DayPlan and PlannedActivity rows: afterwards the trip owns exactly the
fresh day-numbered rows 1..daysCount, every one of its DayPlan rows is fresh
(id at or above the old next-id counter), no PlannedActivity row references
any of its DayPlan rows, and no PlannedActivity row references any of the
trip's old DayPlan rows. -/
theorem regen_empty_catalog_path
    (engine : List Activity → Nat → String → ItineraryPlan)
    (db : DB) (t : Trip) (eff : String) (hwf : DBWellFormed db) :
    regenPlan engine [] t.daysCount eff = emptyCatalogPlan t.daysCount ∧
    (((regenReplace t eff (emptyCatalogPlan t.daysCount) db).dayPlans.filter
        (fun dp => dp.tripId == t.id)).map (fun dp => dp.dayNumber)
      = List.range' 1 t.daysCount) ∧
    (∀ dp ∈ (regenReplace t eff (emptyCatalogPlan t.daysCount) db).dayPlans,
      dp.tripId = t.id →
        db.nextDayPlanId ≤ dp.id ∧
        (regenReplace t eff (emptyCatalogPlan t.daysCount) db).plannedActivities.filter
          (fun pa => pa.dayPlanId == dp.id) = []) ∧
    (∀ pa ∈ (regenReplace t eff (emptyCatalogPlan t.daysCount) db).plannedActivities,
      ∀ dpOld ∈ db.dayPlans, dpOld.tripId = t.id → pa.dayPlanId ≠ dpOld.id) := by
  obtain ⟨hwfDp, hwfPa⟩ := hwf
  set db1 := deleteOldPlan t.id db with hdb1
  set db2 := if eff != t.interests then updateTripInterests t.id eff db1 else db1
    with hdb2
  have hdb2dp : db2.dayPlans = db1.dayPlans := by
    rw [hdb2]; split <;> rfl
  have hdb2pa : db2.plannedActivities = db1.plannedActivities := by
    rw [hdb2]; split <;> rfl
  have hdb2next : db2.nextDayPlanId = db.nextDayPlanId := by
    have h1 := (deleteOldPlan_counters t.id db).1
    rw [hdb2]
    split
    · exact h1
    · exact h1
  have hrr : regenReplace t eff (emptyCatalogPlan t.daysCount) db =
      createAllPAs (createDayPlansFrom t.id 1 t.daysCount db2).2
        (emptyCatalogPlan t.daysCount).days
        (createDayPlansFrom t.id 1 t.daysCount db2).1 := rfl
  have hdpEq : (regenReplace t eff (emptyCatalogPlan t.daysCount) db).dayPlans =
      db1.dayPlans ++ mkDayPlanRows db.nextDayPlanId t.id 1 t.daysCount := by
    rw [hrr, createDayPlansFrom_eq, createAllPAs_eq]
    dsimp only
    rw [hdb2dp, hdb2next]
  have hpaEq : (regenReplace t eff (emptyCatalogPlan t.daysCount) db).plannedActivities =
      db1.plannedActivities := by
    rw [hrr, createDayPlansFrom_eq, createAllPAs_eq]
    dsimp only
    have hnil : mkAllPAs db2.nextPaId
        (mkDayPlanRows db2.nextDayPlanId t.id 1 t.daysCount)
        (emptyCatalogPlan t.daysCount).days = [] :=
      mkAllPAs_eq_nil_of_all_empty _ _ _ (replicate_all_empty t.daysCount)
    rw [hnil, List.append_nil, hdb2pa]
  refine ⟨rfl, ?_, ?_, ?_⟩
  · rw [hdpEq, List.filter_append]
    have hold : db1.dayPlans.filter (fun dp => dp.tripId == t.id) = [] :=
      deleteOldPlan_dayPlans_noTrip t.id db
    have hnew : (mkDayPlanRows db.nextDayPlanId t.id 1 t.daysCount).filter
        (fun dp => dp.tripId == t.id) =
        mkDayPlanRows db.nextDayPlanId t.id 1 t.daysCount := by
      rw [List.filter_eq_self]
      intro dp hdp
      have := mkDayPlanRows_tripId _ _ _ _ dp hdp
      simp [this]
    rw [hold, hnew, List.nil_append, mkDayPlanRows_map_dayNumber]
  · intro dp hdp htrip
    rw [hdpEq] at hdp
    have hdpnew : dp ∈ mkDayPlanRows db.nextDayPlanId t.id 1 t.daysCount := by
      rcases List.mem_append.mp hdp with h | h
      · exact absurd htrip (deleteOldPlan_dayPlans_tripId_ne dp h)
      · exact h
    have hbounds := mkDayPlanRows_id_bounds _ _ _ _ dp hdpnew
    refine ⟨hbounds.1, ?_⟩
    rw [hpaEq, List.filter_eq_nil_iff]
    intro pa hpa
    have hmem : pa ∈ db.plannedActivities := deleteOldPlan_pas_subset hpa
    have := hwfPa pa hmem
    simp only [beq_iff_eq]
    omega
  · intro pa hpa dpOld hdpOld htrip
    rw [hpaEq] at hpa
    exact deleteOldPlan_pas_noTripRefs pa hpa dpOld hdpOld htrip

/-- Counterexample for C5 as frozen: at a concrete empty-catalog regeneration
the synthesized warning is not the string "no activities found for
destination" (the route capitalizes it). -/
theorem regen_empty_catalog_warning_cex :
    (regenPlan generateItinerary [] 3 "museums").warning ≠
      some "no activities found for destination" := by
  decide

/-- Witness for C5 (amended) at a concrete store. -/
theorem regen_empty_catalog_path_witness :
    DBWellFormed dbW ∧
    (regenPlan generateItinerary [] tripA.daysCount "culture" =
      emptyCatalogPlan tripA.daysCount ∧
    (((regenReplace tripA "culture" (emptyCatalogPlan tripA.daysCount) dbW).dayPlans.filter
        (fun dp => dp.tripId == tripA.id)).map (fun dp => dp.dayNumber)
      = List.range' 1 tripA.daysCount) ∧
    (∀ dp ∈ (regenReplace tripA "culture" (emptyCatalogPlan tripA.daysCount) dbW).dayPlans,
      dp.tripId = tripA.id →
        dbW.nextDayPlanId ≤ dp.id ∧
        (regenReplace tripA "culture" (emptyCatalogPlan tripA.daysCount) dbW).plannedActivities.filter
          (fun pa => pa.dayPlanId == dp.id) = []) ∧
    (∀ pa ∈ (regenReplace tripA "culture" (emptyCatalogPlan tripA.daysCount) dbW).plannedActivities,
      ∀ dpOld ∈ dbW.dayPlans, dpOld.tripId = tripA.id → pa.dayPlanId ≠ dpOld.id)) :=
  ⟨by unfold DBWellFormed; decide,
    regen_empty_catalog_path generateItinerary dbW tripA "culture"
      (by unfold DBWellFormed; decide)⟩

end Metroplex

namespace Metroplex

/-! ## Fault injection inside the replace transaction (C3)

The same transaction body, with every store write routed through a write
budget: the first `fuel` writes succeed and the next one raises.  Prisma's
interactive `$transaction` rolls the store back when the body raises. -/

/-- One store write inside the transaction: consumes one unit of budget, or
faults when the injected budget is exhausted. -/
def txWrite (f : DB → DB) : DB × Nat → Option (DB × Nat)
  | (_, 0) => none
  | (db, Nat.succ n) => some (f db, n)

/-- Fallible form of `deleteOldPlan`: the two deleteMany writes, guarded by
the nonempty check, under the write budget. -/
def deleteOldPlanTx (tid : Nat) (s : DB × Nat) : Option (DB × Nat) :=
  let ids := (s.1.dayPlans.filter (fun dp => dp.tripId == tid)).map (fun dp => dp.id)
  if ids.isEmpty then some s
  else
    (txWrite (fun db =>
      { db with plannedActivities :=
          db.plannedActivities.filter (fun pa => !(ids.contains pa.dayPlanId)) }) s).bind
      (txWrite (fun db =>
        { db with dayPlans := db.dayPlans.filter (fun dp => !(dp.tripId == tid)) }))

/-- Fallible form of the conditional interests update. -/
def updateInterestsTx (tid : Nat) (eff tInterests : String) (s : DB × Nat) :
    Option (DB × Nat) :=
  if eff != tInterests then txWrite (updateTripInterests tid eff) s else some s

/-- Fallible form of the dayPlan.create loop. -/
def createDayPlansTx (tid d : Nat) : Nat → DB × Nat → Option ((DB × Nat) × List DayPlanRow)
  | 0, s => some (s, [])
  | Nat.succ n, s =>
    (txWrite (fun db =>
      { db with dayPlans := db.dayPlans ++ [⟨db.nextDayPlanId, tid, d⟩],
                nextDayPlanId := db.nextDayPlanId + 1 }) s).bind fun s1 =>
      (createDayPlansTx tid (d + 1) n s1).map fun p =>
        (p.1, (⟨s.1.nextDayPlanId, tid, d⟩ : DayPlanRow) :: p.2)

/-- Fallible form of one day's plannedActivity.create loop. -/
def createPAsForDayTx (dpId : Nat) : Nat → List Activity → DB × Nat → Option (DB × Nat)
  | _, [], s => some s
  | i, a :: rest, s =>
    (txWrite (fun db =>
      { db with plannedActivities :=
          db.plannedActivities ++ [⟨db.nextPaId, dpId, a.id, i + 1⟩],
                nextPaId := db.nextPaId + 1 }) s).bind
      (createPAsForDayTx dpId (i + 1) rest)

/-- Fallible form of the outer plannedActivity loop. -/
def createAllPAsTx : List DayPlanRow → List (List Activity) → DB × Nat → Option (DB × Nat)
  | [], _, s => some s
  | dp :: dps, planDays, s =>
    (createPAsForDayTx dp.id 0 (planDays.headD []) s).bind
      (createAllPAsTx dps planDays.tail)

/-- The fallible replace-transaction body under write budget `fuel`. -/
def regenReplaceTx (t : Trip) (eff : String) (plan : ItineraryPlan) (db : DB)
    (fuel : Nat) : Option DB :=
  (deleteOldPlanTx t.id (db, fuel)).bind fun s1 =>
    (updateInterestsTx t.id eff t.interests s1).bind fun s2 =>
      (createDayPlansTx t.id 1 t.daysCount s2).bind fun p =>
        (createAllPAsTx p.2 plan.days p.1).map fun s4 => s4.1

/-- prisma.$transaction over the modelled store: commit the body's writes, or
roll the store back untouched when the body raises. -/
def runTransaction (db : DB) (body : DB → Option DB) : Option DB × DB :=
  match body db with
  | some db2 => (some db2, db2)
  | none => (none, db)

lemma txWrite_some {f : DB → DB} {db : DB} {fuel : Nat} {s' : DB × Nat}
    (h : txWrite f (db, fuel) = some s') : s'.1 = f db := by
  cases fuel with
  | zero => cases h
  | succ n => cases h; rfl

lemma deleteOldPlanTx_some {tid : Nat} {db : DB} {fuel : Nat} {s' : DB × Nat}
    (h : deleteOldPlanTx tid (db, fuel) = some s') : s'.1 = deleteOldPlan tid db := by
  revert h
  unfold deleteOldPlanTx deleteOldPlan
  simp only
  split
  · intro h
    cases h
    rfl
  · cases fuel with
    | zero => intro h; cases h
    | succ n =>
      cases n with
      | zero => intro h; cases h
      | succ m => intro h; cases h; rfl

lemma updateInterestsTx_some {tid : Nat} {eff ti : String} {db : DB} {fuel : Nat}
    {s' : DB × Nat} (h : updateInterestsTx tid eff ti (db, fuel) = some s') :
    s'.1 = if eff != ti then updateTripInterests tid eff db else db := by
  revert h
  unfold updateInterestsTx
  split
  · intro h
    exact txWrite_some h
  · intro h
    cases h
    rfl

lemma createDayPlansTx_some {tid : Nat} :
    ∀ {n d : Nat} {db : DB} {fuel : Nat} {p : (DB × Nat) × List DayPlanRow},
      createDayPlansTx tid d n (db, fuel) = some p →
        p.1.1 = (createDayPlansFrom tid d n db).1 ∧
        p.2 = (createDayPlansFrom tid d n db).2 := by
  intro n
  induction n with
  | zero =>
    intro d db fuel p h
    cases h
    exact ⟨rfl, rfl⟩
  | succ n ih =>
    intro d db fuel p h
    rw [createDayPlansTx] at h
    cases fuel with
    | zero => cases h
    | succ m =>
      simp only [txWrite, Option.some_bind] at h
      cases hrec : createDayPlansTx tid (d + 1) n
          ({ db with dayPlans := db.dayPlans ++ [⟨db.nextDayPlanId, tid, d⟩],
                     nextDayPlanId := db.nextDayPlanId + 1 }, m) with
      | none => rw [hrec] at h; cases h
      | some q =>
        rw [hrec] at h
        simp only [Option.map_some'] at h
        cases h
        have := ih hrec
        rw [createDayPlansFrom]
        exact ⟨this.1, by simp [this.2]⟩

lemma createPAsForDayTx_some {dpId : Nat} :
    ∀ {items : List Activity} {i : Nat} {db : DB} {fuel : Nat} {s' : DB × Nat},
      createPAsForDayTx dpId i items (db, fuel) = some s' →
        s'.1 = createPAsForDayFrom dpId i items db := by
  intro items
  induction items with
  | nil =>
    intro i db fuel s' h
    cases h
    rfl
  | cons a rest ih =>
    intro i db fuel s' h
    rw [createPAsForDayTx] at h
    cases fuel with
    | zero => cases h
    | succ m =>
      simp only [txWrite, Option.some_bind] at h
      rw [createPAsForDayFrom]
      exact ih h

lemma createAllPAsTx_some :
    ∀ {dps : List DayPlanRow} {planDays : List (List Activity)} {db : DB}
      {fuel : Nat} {s' : DB × Nat},
      createAllPAsTx dps planDays (db, fuel) = some s' →
        s'.1 = createAllPAs dps planDays db := by
  intro dps
  induction dps with
  | nil =>
    intro planDays db fuel s' h
    cases h
    rfl
  | cons dp dps ih =>
    intro planDays db fuel s' h
    rw [createAllPAsTx] at h
    cases hday : createPAsForDayTx dp.id 0 (planDays.headD []) (db, fuel) with
    | none => rw [hday] at h; cases h
    | some s1 =>
      rw [hday] at h
      simp only [Option.some_bind] at h
      rw [createAllPAs]
      obtain ⟨db1, fuel1⟩ := s1
      have h1 := createPAsForDayTx_some hday
      simp only at h1
      rw [← h1]
      exact ih h

/-- Adequacy of the fault-injected body: whenever it runs to completion it
computes exactly the pure replace-transaction body. -/
lemma regenReplaceTx_some {t : Trip} {eff : String} {plan : ItineraryPlan}
    {db db' : DB} {fuel : Nat}
    (h : regenReplaceTx t eff plan db fuel = some db') :
    db' = regenReplace t eff plan db := by
  unfold regenReplaceTx at h
  cases h1 : deleteOldPlanTx t.id (db, fuel) with
  | none => rw [h1] at h; cases h
  | some s1 =>
    rw [h1] at h
    simp only [Option.some_bind] at h
    obtain ⟨db1, fuel1⟩ := s1
    have e1 : db1 = deleteOldPlan t.id db := deleteOldPlanTx_some h1
    cases h2 : updateInterestsTx t.id eff t.interests (db1, fuel1) with
    | none => rw [h2] at h; cases h
    | some s2 =>
      rw [h2] at h
      simp only [Option.some_bind] at h
      obtain ⟨db2, fuel2⟩ := s2
      have e2 : db2 = if eff != t.interests then updateTripInterests t.id eff db1 else db1 :=
        updateInterestsTx_some h2
      cases h3 : createDayPlansTx t.id 1 t.daysCount (db2, fuel2) with
      | none => rw [h3] at h; cases h
      | some p =>
        rw [h3] at h
        simp only [Option.some_bind] at h
        obtain ⟨⟨db3, fuel3⟩, rows⟩ := p
        have e3 := createDayPlansTx_some h3
        simp only at e3
        cases h4 : createAllPAsTx rows plan.days (db3, fuel3) with
        | none => rw [h4] at h; cases h
        | some s4 =>
          rw [h4] at h
          simp only [Option.map_some'] at h
          cases h
          have e4 : s4.1 = createAllPAs rows plan.days db3 := createAllPAsTx_some h4
          rw [e4, e3.2, e3.1]
          have hrr : regenReplace t eff plan db =
              createAllPAs (createDayPlansFrom t.id 1 t.daysCount
                  (if eff != t.interests then
                    updateTripInterests t.id eff (deleteOldPlan t.id db)
                  else deleteOldPlan t.id db)).2 plan.days
                (createDayPlansFrom t.id 1 t.daysCount
                  (if eff != t.interests then
                    updateTripInterests t.id eff (deleteOldPlan t.id db)
                  else deleteOldPlan t.id db)).1 := rfl
          rw [e2, e1]
          exact hrr.symm

/-- C3: the replacement of a trip's persisted plan is one all-or-nothing
transaction - when any write of the body faults (the write budget `fuel` is
exhausted mid-body), the transaction reports the fault and the store is
rolled back: the trip's previously persisted DayPlan and PlannedActivity rows
remain exactly as they were before the regeneration attempt. -/
theorem regen_replace_atomic (db : DB) (t : Trip) (eff : String)
    (plan : ItineraryPlan) (fuel : Nat)
    (hfail : regenReplaceTx t eff plan db fuel = none) :
    runTransaction db (fun d => regenReplaceTx t eff plan d fuel) = (none, db) ∧
    (runTransaction db (fun d => regenReplaceTx t eff plan d fuel)).2.dayPlans =
      db.dayPlans ∧
    (runTransaction db (fun d => regenReplaceTx t eff plan d fuel)).2.plannedActivities =
      db.plannedActivities := by
  have hrun : runTransaction db (fun d => regenReplaceTx t eff plan d fuel) = (none, db) := by
    simp only [runTransaction, hfail]
  exact ⟨hrun, by rw [hrun], by rw [hrun]⟩

/-- Witness store for C3: the trip already owns one DayPlan with one
PlannedActivity. -/
def dbW3 : DB :=
  ⟨[tripA, tripB], [], [⟨1, 1, 1⟩, ⟨2, 1, 2⟩], [⟨1, 1, 11, 1⟩], 3, 3, 2⟩

/-- Witness for C3: with a write budget of one, the body faults at the second
deleteMany, and the rollback leaves the prior rows intact. -/
theorem regen_replace_atomic_witness :
    regenReplaceTx tripA "culture" planW dbW3 1 = none ∧
    (runTransaction dbW3 (fun d => regenReplaceTx tripA "culture" planW d 1) =
        (none, dbW3) ∧
      (runTransaction dbW3 (fun d => regenReplaceTx tripA "culture" planW d 1)).2.dayPlans =
        dbW3.dayPlans ∧
      (runTransaction dbW3 (fun d => regenReplaceTx tripA "culture" planW d 1)).2.plannedActivities =
        dbW3.plannedActivities) :=
  ⟨by decide, regen_replace_atomic dbW3 tripA "culture" planW 1 (by decide)⟩

end Metroplex

namespace Metroplex

/-! ## Trip creation (POST /) and its daysCount validation (C10) -/

/-- The result of the JavaScript Number() conversion applied to a request
body field: a (finite) numeric value, or NaN / an infinity (collapsed into
`nan`, on which Number.isInteger is false just as in JS). -/
inductive JSNum where
  | nan : JSNum
  | num (q : Rat) : JSNum
deriving DecidableEq

/-- Observable side effects of the creation handler, in order. -/
inductive Effect where
  | fetchActivities
  | runEngine
  | persistTx
deriving DecidableEq

/-- Responses of the creation handler (by message / status). -/
inductive CreateResp where
  | badDestination
  | badDaysCount
  | badBudget
  | badInterests
  | unauthorized
  | created (warning : Option String)
deriving DecidableEq

/-- The creation transaction: create the Trip row, then DayPlans 1..days,
then PlannedActivities with 1-based order indices - the same loops as the
regenerate transaction, minus the delete. -/
def createTripTx (uid : Nat) (dest : String) (days : Nat) (bud : Option Rat)
    (interests : String) (plan : ItineraryPlan) (db : DB) : DB :=
  let newTrip : Trip := ⟨db.nextTripId, uid, dest, days, bud, interests, none⟩
  let db0 := { db with trips := db.trips ++ [newTrip],
                       nextTripId := db.nextTripId + 1 }
  let credp := createDayPlansFrom newTrip.id 1 days db0
  createAllPAs credp.2 plan.days credp.1

/-- The POST / handler: validate destination, daysCount
(`Number.isInteger(days) && 1 <= days <= 30`), budget (absent, or a number
>= 0), interests and the authenticated user, in source order; then fetch the
destination catalog, run the engine, and persist in one transaction.  The
effect trace records which of those three steps ran. -/
def createTrip (db : DB) (uid : Option Nat) (destination : Option String)
    (daysCount : JSNum) (budget : Option JSNum) (interests : Option String) :
    CreateResp × DB × List Effect :=
  match destination with
  | none => (.badDestination, db, [])
  | some dest =>
    if dest = "" then (.badDestination, db, [])
    else
      match daysCount with
      | .nan => (.badDaysCount, db, [])
      | .num q =>
        if q.den ≠ 1 ∨ q.num < 1 ∨ 30 < q.num then (.badDaysCount, db, [])
        else
          let days := q.num.toNat
          let budParsed : Option (Option Rat) :=
            match budget with
            | none => some none
            | some .nan => none
            | some (.num b) => if b < 0 then none else some (some b)
          match budParsed with
          | none => (.badBudget, db, [])
          | some bud =>
            match interests with
            | none => (.badInterests, db, [])
            | some i =>
              if i = "" then (.badInterests, db, [])
              else
                match uid with
                | none => (.unauthorized, db, [])
                | some u =>
                  let acts := db.activities.filter (fun a => a.destination == dest)
                  let plan := generateItinerary acts days i
                  (.created plan.warning, createTripTx u dest days bud i plan db,
                    [.fetchActivities, .runEngine, .persistTx])

/-- C10: trip creation accepts daysCount only when Number() of it is an
integer between 1 and 30 inclusive.  For every other value (NaN, non-integer,
below 1, above 30) the request is rejected with the 400 daysCount response
before any activity fetch, allocation or persistence: the store is unchanged
and the effect trace is empty.  When daysCount is valid (and the remaining
fields pass their checks) the request is accepted and all three steps run. -/
theorem create_days_validation (db : DB) (uid : Option Nat) (dest : String)
    (daysCount : JSNum) (budget : Option JSNum) (interests : Option String)
    (hdest : dest ≠ "") :
    ((∀ q, daysCount = JSNum.num q → ¬(q.den = 1 ∧ 1 ≤ q.num ∧ q.num ≤ 30)) →
      createTrip db uid (some dest) daysCount budget interests =
        (CreateResp.badDaysCount, db, [])) ∧
    (∀ q, daysCount = JSNum.num q → q.den = 1 → 1 ≤ q.num → q.num ≤ 30 →
      ∀ u i, uid = some u → interests = some i → i ≠ "" → budget = none →
        ∃ w db', createTrip db uid (some dest) daysCount budget interests =
          (CreateResp.created w, db',
            [Effect.fetchActivities, Effect.runEngine, Effect.persistTx])) := by
  constructor
  · intro h
    cases daysCount with
    | nan =>
      unfold createTrip
      dsimp only
      rw [if_neg hdest]
    | num q =>
      have hcond : q.den ≠ 1 ∨ q.num < 1 ∨ 30 < q.num := by
        have := h q rfl
        omega
      unfold createTrip
      dsimp only
      rw [if_neg hdest, if_pos hcond]
  · intro q hq hden h1 h30 u i hu hi hine hb
    subst hq hu hi hb
    have hcond : ¬(q.den ≠ 1 ∨ q.num < 1 ∨ 30 < q.num) := by omega
    have heq : createTrip db (some u) (some dest) (JSNum.num q) none (some i) =
        (CreateResp.created (generateItinerary
            (db.activities.filter (fun a => a.destination == dest)) q.num.toNat i).warning,
          createTripTx u dest q.num.toNat none i
            (generateItinerary (db.activities.filter (fun a => a.destination == dest))
              q.num.toNat i) db,
          [Effect.fetchActivities, Effect.runEngine, Effect.persistTx]) := by
      unfold createTrip
      dsimp only
      rw [if_neg hdest, if_neg hcond]
      rw [if_neg hine]
    exact ⟨_, _, heq⟩

/-- Witness for C10: NaN daysCount is rejected with no work; daysCount 5 with
valid companion fields is accepted. -/
theorem create_days_validation_witness :
    ("Paris" ≠ "" ∧
      (∀ q, JSNum.nan = JSNum.num q → ¬(q.den = 1 ∧ 1 ≤ q.num ∧ q.num ≤ 30))) ∧
    (createTrip dbW (some 7) (some "Paris") JSNum.nan none (some "culture") =
        (CreateResp.badDaysCount, dbW, [])) ∧
    ((5:Rat).den = 1 ∧ 1 ≤ (5:Rat).num ∧ (5:Rat).num ≤ 30) ∧
    (∃ w db', createTrip dbW (some 7) (some "Paris") (JSNum.num 5) none
        (some "culture") =
      (CreateResp.created w, db',
        [Effect.fetchActivities, Effect.runEngine, Effect.persistTx])) :=
  ⟨⟨by decide, fun q hq => by cases hq⟩,
    (create_days_validation dbW (some 7) "Paris" JSNum.nan none (some "culture")
        (by decide)).1 (fun q hq => by cases hq),
    ⟨by decide, by decide, by decide⟩,
    (create_days_validation dbW (some 7) "Paris" (JSNum.num 5) none (some "culture")
        (by decide)).2 5 rfl (by decide) (by decide) (by decide) 7 "culture" rfl rfl
        (by decide) rfl⟩

end Metroplex

namespace Metroplex

/-- C6: every successful (re)generation - the regenerate route's replace
transaction and the creation route's transaction alike, whose create loops
are identical - persists exactly one DayPlan row per day number 1..daysCount
for the trip, and within each DayPlan the PlannedActivity rows carry order
indices that are 1-based, contiguous, unique within the DayPlan (they are
exactly the range 1..len), and equal to the position of the activity in that
day's list of the generated plan. -/
theorem regen_persists_days_and_order (db : DB) (t : Trip) (eff : String)
    (plan : ItineraryPlan) (u days : Nat) (dest intr : String) (bud : Option Rat)
    (hwf : DBWellFormed db)
    (hfresh : ∀ dp ∈ db.dayPlans, dp.tripId ≠ db.nextTripId) :
    ((((regenReplace t eff plan db).dayPlans.filter
        (fun dp => dp.tripId == t.id)).map (fun dp => dp.dayNumber)
      = List.range' 1 t.daysCount) ∧
    ∀ k, k < t.daysCount →
      ∃ dp, dp ∈ (regenReplace t eff plan db).dayPlans ∧ dp.tripId = t.id ∧
        dp.dayNumber = k + 1 ∧
        (((regenReplace t eff plan db).plannedActivities.filter
            (fun pa => pa.dayPlanId == dp.id)).map (fun pa => pa.orderIndex)
          = List.range' 1 (plan.days.getD k []).length) ∧
        (((regenReplace t eff plan db).plannedActivities.filter
            (fun pa => pa.dayPlanId == dp.id)).map (fun pa => pa.activityId)
          = (plan.days.getD k []).map (fun a => a.id))) ∧
    ((((createTripTx u dest days bud intr plan db).dayPlans.filter
        (fun dp => dp.tripId == db.nextTripId)).map (fun dp => dp.dayNumber)
      = List.range' 1 days) ∧
    ∀ k, k < days →
      ∃ dp, dp ∈ (createTripTx u dest days bud intr plan db).dayPlans ∧
        dp.tripId = db.nextTripId ∧ dp.dayNumber = k + 1 ∧
        (((createTripTx u dest days bud intr plan db).plannedActivities.filter
            (fun pa => pa.dayPlanId == dp.id)).map (fun pa => pa.orderIndex)
          = List.range' 1 (plan.days.getD k []).length) ∧
        (((createTripTx u dest days bud intr plan db).plannedActivities.filter
            (fun pa => pa.dayPlanId == dp.id)).map (fun pa => pa.activityId)
          = (plan.days.getD k []).map (fun a => a.id))) := by
  obtain ⟨hwfDp, hwfPa⟩ := hwf
  constructor
  · -- the regenerate route's replace transaction
    set db1 := deleteOldPlan t.id db with hdb1
    set db2 := if eff != t.interests then updateTripInterests t.id eff db1 else db1
      with hdb2
    have hdb2dp : db2.dayPlans = db1.dayPlans := by
      rw [hdb2]; split <;> rfl
    have hdb2pa : db2.plannedActivities = db1.plannedActivities := by
      rw [hdb2]; split <;> rfl
    have hdb2next : db2.nextDayPlanId = db.nextDayPlanId := by
      have h1 := (deleteOldPlan_counters t.id db).1
      rw [hdb2]
      split
      · exact h1
      · exact h1
    have hrr : regenReplace t eff plan db =
        createAllPAs (createDayPlansFrom t.id 1 t.daysCount db2).2 plan.days
          (createDayPlansFrom t.id 1 t.daysCount db2).1 := rfl
    have hnodp : db2.dayPlans.filter (fun dp => dp.tripId == t.id) = [] := by
      rw [hdb2dp]
      exact deleteOldPlan_dayPlans_noTrip t.id db
    have hpa2 : ∀ pa ∈ db2.plannedActivities, pa.dayPlanId < db2.nextDayPlanId := by
      intro pa hpa
      rw [hdb2pa] at hpa
      rw [hdb2next]
      exact hwfPa pa (deleteOldPlan_pas_subset hpa)
    have hcore := createPlan_core t.id t.daysCount plan db2 hnodp hpa2
    rw [← hrr] at hcore
    exact hcore
  · -- the creation route's transaction
    set db0 : DB := { db with
        trips := db.trips ++ [⟨db.nextTripId, u, dest, days, bud, intr, none⟩],
        nextTripId := db.nextTripId + 1 } with hdb0
    have hcr : createTripTx u dest days bud intr plan db =
        createAllPAs (createDayPlansFrom db.nextTripId 1 days db0).2 plan.days
          (createDayPlansFrom db.nextTripId 1 days db0).1 := rfl
    have hnodp0 : db0.dayPlans.filter (fun dp => dp.tripId == db.nextTripId) = [] := by
      rw [List.filter_eq_nil_iff]
      intro dp hdp
      have hdp2 : dp ∈ db.dayPlans := hdp
      simpa using hfresh dp hdp2
    have hpa0 : ∀ pa ∈ db0.plannedActivities, pa.dayPlanId < db0.nextDayPlanId := by
      intro pa hpa
      exact hwfPa pa hpa
    have hcore := createPlan_core db.nextTripId days plan db0 hnodp0 hpa0
    rw [← hcr] at hcore
    exact hcore

/-- Witness for C6 at a concrete store and plan, exercising both the
regeneration replace and the creation transaction. -/
theorem regen_persists_days_and_order_witness :
    (DBWellFormed dbW ∧ (∀ dp ∈ dbW.dayPlans, dp.tripId ≠ dbW.nextTripId)) ∧
    (((((regenReplace tripA "culture" planW dbW).dayPlans.filter
        (fun dp => dp.tripId == tripA.id)).map (fun dp => dp.dayNumber)
      = List.range' 1 tripA.daysCount) ∧
    ∀ k, k < tripA.daysCount →
      ∃ dp, dp ∈ (regenReplace tripA "culture" planW dbW).dayPlans ∧
        dp.tripId = tripA.id ∧ dp.dayNumber = k + 1 ∧
        (((regenReplace tripA "culture" planW dbW).plannedActivities.filter
            (fun pa => pa.dayPlanId == dp.id)).map (fun pa => pa.orderIndex)
          = List.range' 1 (planW.days.getD k []).length) ∧
        (((regenReplace tripA "culture" planW dbW).plannedActivities.filter
            (fun pa => pa.dayPlanId == dp.id)).map (fun pa => pa.activityId)
          = (planW.days.getD k []).map (fun a => a.id))) ∧
    ((((createTripTx 7 "Paris" 2 none "culture" planW dbW).dayPlans.filter
        (fun dp => dp.tripId == dbW.nextTripId)).map (fun dp => dp.dayNumber)
      = List.range' 1 2) ∧
    ∀ k, k < 2 →
      ∃ dp, dp ∈ (createTripTx 7 "Paris" 2 none "culture" planW dbW).dayPlans ∧
        dp.tripId = dbW.nextTripId ∧ dp.dayNumber = k + 1 ∧
        (((createTripTx 7 "Paris" 2 none "culture" planW dbW).plannedActivities.filter
            (fun pa => pa.dayPlanId == dp.id)).map (fun pa => pa.orderIndex)
          = List.range' 1 (planW.days.getD k []).length) ∧
        (((createTripTx 7 "Paris" 2 none "culture" planW dbW).plannedActivities.filter
            (fun pa => pa.dayPlanId == dp.id)).map (fun pa => pa.activityId)
          = (planW.days.getD k []).map (fun a => a.id)))) :=
  ⟨⟨by unfold DBWellFormed; decide, by decide⟩,
    regen_persists_days_and_order dbW tripA "culture" planW 7 2 "Paris" "culture"
      none (by unfold DBWellFormed; decide) (by decide)⟩

end Metroplex
